import Mathlib

/-!
Verification of the scoutscrape snapshot acquisition, caching and ingestion
pipeline (src/main.go, src/summary.go) against its natural-language design.

The Go source is shallowly embedded: pure helpers become Lean functions,
the filesystem/database side effects become explicit state passing over a
table of rows plus an event trace, and machine integers become `Int`/`Nat`
with explicit range checks where `strconv` checks them.  Go `float64`
values produced by `strconv.ParseFloat` are modelled as exact rationals
over the decimal literal grammar (IEEE rounding, hexadecimal literals and
the non-numeric `inf`/`nan` forms are outside the model; the feed emits
plain decimals and no claim depends on those forms).
-/

namespace Scout

/-- Quote characters used by `unquote` (src/summary.go:90); written via
`Char.ofNat` so the character codes are explicit: 39 is the single quote,
34 is the double quote. -/
def squote : Char := Char.ofNat 39

/-- Double-quote character, code 34. -/
def dquote : Char := Char.ofNat 34

/-- Decimal digit test on a character, via its code point: models Go's
`c >= '0' && c <= '9'` checks inside `strconv` digit loops. -/
def isDigitCh (c : Char) : Bool := 48 ≤ c.toNat && c.toNat ≤ 57

/-- Numeric value of a digit character (code point minus 48). -/
def dv (c : Char) : Nat := c.toNat - 48

/-- Mathematical reading of a digit string: standard positional value.
This is the specification-side denotation used to state that decoders
return values numerically equal to the source token. -/
def digitsVal (l : List Char) : Nat := l.foldl (fun a c => 10 * a + dv c) 0

/-- unquote (src/summary.go:89-94): if the token has length > 1 and its
first and last characters are the same quote character (single or double),
strip them; otherwise return the token unchanged. -/
def unquote (l : List Char) : List Char :=
  if 1 < l.length ∧ l.head? = l.getLast? ∧ (l.head? = some squote ∨ l.head? = some dquote)
  then (l.drop 1).dropLast
  else l

/-- Error kinds of `strconv.NumError`: invalid syntax or value out of range. -/
inductive ErrKind where
  | syntaxErr
  | rangeErr
deriving DecidableEq, Repr

/-- strconv.NumError: the failing function name and the string it was
parsing.  This is all the information the decode errors of
src/summary.go carry — the erring struct field is not part of it. -/
structure NumErr where
  fn : String
  num : String
  kind : ErrKind
deriving DecidableEq, Repr

/-- The message rendered by `strconv.NumError.Error()`. -/
def NumErr.msg (e : NumErr) : String :=
  "strconv." ++ e.fn ++ ": parsing \"" ++ e.num ++ "\": " ++
    (match e.kind with
     | .syntaxErr => "invalid syntax"
     | .rangeErr => "value out of range")

/-- Sign handling of `strconv.ParseInt`/`ParseFloat`: strip one optional
leading `+` or `-`, returning whether the value is negated and the rest. -/
def splitSign (l : List Char) : Bool × List Char :=
  match l with
  | [] => (false, [])
  | c :: rest =>
    if c = '+' then (false, rest)
    else if c = '-' then (true, rest)
    else (false, c :: rest)

/-- strconv.Atoi = ParseInt(s, 10, 0) with 64-bit int (src/summary.go:53):
empty input or any non-digit character after the optional sign is a syntax
error; the digit string is read positionally; results outside
[-2^63, 2^63-1] are a range error.  The `NumErr.num` field is the string
given to Atoi — for the decoders below that is the token after `unquote`. -/
def goAtoi (s : String) : Except NumErr Int :=
  let sp := splitSign s.data
  if sp.2 = [] then .error ⟨"Atoi", s, .syntaxErr⟩
  else if ¬ sp.2.all isDigitCh then .error ⟨"Atoi", s, .syntaxErr⟩
  else if sp.1 then
    if digitsVal sp.2 ≤ 2 ^ 63 then .ok (-(digitsVal sp.2 : Int))
    else .error ⟨"Atoi", s, .rangeErr⟩
  else
    if digitsVal sp.2 < 2 ^ 63 then .ok (digitsVal sp.2 : Int)
    else .error ⟨"Atoi", s, .rangeErr⟩

/-- Digit scanner of `strconv`'s float reader: consume leading digits,
accumulating their positional value onto `acc` and counting them onto `k`;
return the accumulator, the count and the unconsumed rest. -/
def scanDigits : List Char → Nat → Nat → Nat × Nat × List Char
  | [], acc, k => (acc, k, [])
  | c :: rest, acc, k =>
    if isDigitCh c then scanDigits rest (10 * acc + dv c) (k + 1)
    else (acc, k, c :: rest)

/-- Exponent part of the float grammar: empty input means exponent 0; an
`e`/`E` followed by an optional sign and at least one digit gives that
signed exponent; anything else is a syntax error. -/
def scanExp (l : List Char) : Except Unit Int :=
  match l with
  | [] => .ok 0
  | c :: rest =>
    if c = 'e' ∨ c = 'E' then
      let sp := splitSign rest
      let sd := scanDigits sp.2 0 0
      if sd.2.1 = 0 ∨ sd.2.2 ≠ [] then .error ()
      else .ok (if sp.1 then -(sd.1 : Int) else (sd.1 : Int))
    else .error ()

/-- Exact value of a decimal float literal: mantissa `m` with `f` digits
after the point and decimal exponent `e` denotes `±m·10^(e-f)`. -/
def decValue (neg : Bool) (m : Nat) (f : Nat) (e : Int) : ℚ :=
  let p : Int := e - f
  let mag : ℚ := if 0 ≤ p then (m : ℚ) * 10 ^ p.toNat else (m : ℚ) / 10 ^ (-p).toNat
  if neg then -mag else mag

/-- The digit/point/exponent stage of `strconv`'s float reader, after the
sign has been stripped: the mantissa, the count of fractional digits and
the decimal exponent, or `none` on a syntax error. -/
def goFloatBody (r : List Char) : Option (Nat × Nat × Int) :=
  let d1 := scanDigits r 0 0
  let d2 := if d1.2.2.head? = some '.' then scanDigits d1.2.2.tail d1.1 0 else (d1.1, 0, d1.2.2)
  if d1.2.1 + d2.2.1 = 0 then none
  else
    match scanExp d2.2.2 with
    | .error _ => none
    | .ok e => some (d2.1, d2.2.1, e)

/-- strconv.ParseFloat (src/summary.go:74) restricted to the decimal
grammar `[+-]? digits [. digits]? ([eE][+-]?digits)?` with at least one
mantissa digit, valued exactly in `ℚ` (see the file header for what is
abstracted away). -/
def goParseFloat (s : String) : Except NumErr ℚ :=
  let sp := splitSign s.data
  match goFloatBody sp.2 with
  | none => .error ⟨"ParseFloat", s, .syntaxErr⟩
  | some (m, fk, e) => .ok (decValue sp.1 m fk e)

/-- Decidable equality of `Except` results, so concrete decoder runs can
be checked with `decide`. -/
instance {ε α : Type _} [DecidableEq ε] [DecidableEq α] : DecidableEq (Except ε α) := fun x y =>
  match x, y with
  | .ok a, .ok b =>
    if h : a = b then .isTrue (by rw [h])
    else .isFalse (fun hc => h (by injection hc))
  | .error a, .error b =>
    if h : a = b then .isTrue (by rw [h])
    else .isFalse (fun hc => h (by injection hc))
  | .ok _, .error _ => .isFalse (fun hc => by injection hc)
  | .error _, .ok _ => .isFalse (fun hc => by injection hc)

/-- qint.UnmarshalJSON (src/summary.go:49-59): the literal null token
leaves the receiver at its zero value (`none`, i.e. absent); otherwise the
token is unquoted and parsed with `strconv.Atoi`, a parse error is
returned as-is, and success stores the value.  `encoding/json` never calls
the unmarshaler for a field missing from the payload, so a fresh record's
field stays `none`; that omitted-field case is `detailField` below. -/
def qintUnmarshal (data : String) : Except NumErr (Option Int) :=
  if data = "null" then .ok none
  else
    match goAtoi ⟨unquote data.data⟩ with
    | .error e => .error e
    | .ok v => .ok (some v)

/-- qfloat.UnmarshalJSON (src/summary.go:70-80), same shape with
`strconv.ParseFloat`. -/
def qfloatUnmarshal (data : String) : Except NumErr (Option ℚ) :=
  if data = "null" then .ok none
  else
    match goParseFloat ⟨unquote data.data⟩ with
    | .error e => .error e
    | .ok v => .ok (some v)

/-- A UTC instant at minute precision, as produced by parsing with layout
`"2006-01-02 15:04"` (src/summary.go:103).  Go's `time.Time` zero value is
January 1 of year 1, 00:00 UTC. -/
structure GoTime where
  year : Nat
  month : Nat
  day : Nat
  hour : Nat
  minute : Nat
deriving DecidableEq, Repr

/-- The zero value of `time.Time`: 0001-01-01 00:00 UTC. -/
def GoTime.zero : GoTime := ⟨1, 1, 1, 0, 0⟩

/-- Gregorian leap-year rule, as in Go's `time` package. -/
def isLeap (y : Nat) : Bool := y % 4 = 0 && (y % 100 ≠ 0 || y % 400 = 0)

/-- Days in a month, as validated by Go's `time.Parse` date checks. -/
def daysIn (y : Nat) (m : Nat) : Nat :=
  if m = 2 then (if isLeap y then 29 else 28)
  else if m = 4 ∨ m = 6 ∨ m = 9 ∨ m = 11 then 30
  else 31

/-- Validity of a parsed broken-down time under layout `2006-01-02 15:04`:
4-digit year, month 1-12, day valid for the month, hour below 24 and
minute below 60 — the range checks `time.Parse` applies. -/
def validGoTime (t : GoTime) : Prop :=
  t.year < 10000 ∧ 1 ≤ t.month ∧ t.month ≤ 12 ∧ 1 ≤ t.day ∧
    t.day ≤ daysIn t.year t.month ∧ t.hour < 24 ∧ t.minute < 60

instance (t : GoTime) : Decidable (validGoTime t) := by
  unfold validGoTime; infer_instance

/-- Two fixed digits: Go's `getnum` with `fixed = true`, used by the
zero-padded layout elements `01`, `02` and `04`. -/
def getnum2 : List Char → Option (Nat × List Char)
  | c1 :: c2 :: rest =>
    if isDigitCh c1 ∧ isDigitCh c2 then some (dv c1 * 10 + dv c2, rest) else none
  | _ => none

/-- One or two digits: Go's `getnum` with `fixed = false`, used by the
layout element `15` (hour) — it takes a second digit only when one is
there. -/
def getnum1or2 : List Char → Option (Nat × List Char)
  | [] => none
  | [c1] => if isDigitCh c1 then some (dv c1, []) else none
  | c1 :: c2 :: rest =>
    if isDigitCh c1 then
      if isDigitCh c2 then some (dv c1 * 10 + dv c2, rest)
      else some (dv c1, c2 :: rest)
    else none

/-- Four digits: Go's `stdLongYear` handling (four characters, all
digits). -/
def getnum4 : List Char → Option (Nat × List Char)
  | c1 :: c2 :: c3 :: c4 :: rest =>
    if isDigitCh c1 ∧ isDigitCh c2 ∧ isDigitCh c3 ∧ isDigitCh c4 then
      some ((((dv c1 * 10 + dv c2) * 10 + dv c3) * 10 + dv c4), rest)
    else none
  | _ => none

/-- A space in the layout: Go's `skip`/`cutspace` require the value to
start with a space and then consume every leading space. -/
def skipSpace (l : List Char) : Option (List Char) :=
  match l with
  | c :: rest => if c = ' ' then some (rest.dropWhile fun x => x = ' ') else none
  | [] => none

/-- time.ParseInLocation with layout `"2006-01-02 15:04"`
(src/summary.go:103): a 4-digit year, literal `-`, 2-digit month, literal
`-`, 2-digit day, one or more spaces, a one- or two-digit hour (layout
element `15` is not zero-padded), literal `:`, a 2-digit minute and
nothing after; then the range checks `time.Parse` applies (month, day
against the month's length, hour, minute). -/
def goParseMinute (l : List Char) : Except String GoTime :=
  match getnum4 l with
  | none => .error "parsing time: cannot parse"
  | some (y, l1) =>
    if l1.head? = some '-' then
      match getnum2 l1.tail with
      | none => .error "parsing time: cannot parse"
      | some (mo, l3) =>
        if l3.head? = some '-' then
          match getnum2 l3.tail with
          | none => .error "parsing time: cannot parse"
          | some (d, l5) =>
            match skipSpace l5 with
            | none => .error "parsing time: cannot parse"
            | some l6 =>
              match getnum1or2 l6 with
              | none => .error "parsing time: cannot parse"
              | some (h, l7) =>
                if l7.head? = some ':' then
                  match getnum2 l7.tail with
                  | none => .error "parsing time: cannot parse"
                  | some (mi, l9) =>
                    if l9 ≠ [] then .error "parsing time: extra text"
                    else if 1 ≤ mo ∧ mo ≤ 12 ∧ 1 ≤ d ∧ d ≤ daysIn y mo ∧
                        h < 24 ∧ mi < 60 then
                      .ok ⟨y, mo, d, h, mi⟩
                    else .error "parsing time: out of range"
                else .error "parsing time: cannot parse"
        else .error "parsing time: cannot parse"
    else .error "parsing time: cannot parse"

/-- mintime.UnmarshalJSON (src/summary.go:98-109): the null token leaves
the receiver at the zero instant; any other token is unquoted and parsed
with the fixed minute layout. -/
def mintimeUnmarshal (data : String) : Except String GoTime :=
  if data = "null" then .ok GoTime.zero
  else goParseMinute (unquote data.data)

/-- Two-digit zero-padded rendering of a number, the inverse shape of the
layout's fixed-width numeric fields. -/
def pad2 (n : Nat) : List Char := [Char.ofNat (48 + n / 10), Char.ofNat (48 + n % 10)]

/-- Four-digit zero-padded rendering of a year. -/
def pad4 (n : Nat) : List Char :=
  [Char.ofNat (48 + n / 1000), Char.ofNat (48 + n / 100 % 10),
   Char.ofNat (48 + n / 10 % 10), Char.ofNat (48 + n % 10)]

/-- Rendering of a broken-down time in the family of forms the layout
`2006-01-02 15:04` accepts: `short` renders the hour with a single digit
(possible only when it is below 10), and `k` counts the extra spaces in
the date-time separator.  Specification-side description of the tokens
the timestamp decoder accepts. -/
def fmtMinuteGen (t : GoTime) (short : Bool) (k : Nat) : List Char :=
  pad4 t.year ++ '-' :: pad2 t.month ++ '-' :: pad2 t.day ++
    (List.replicate (k + 1) ' ' ++
      ((if short then [Char.ofNat (48 + t.hour)] else pad2 t.hour) ++ ':' :: pad2 t.minute))

/-- The canonical `YYYY-MM-DD hh:mm` rendering: 2-digit hour, a single
space. -/
def fmtMinute (t : GoTime) : List Char := fmtMinuteGen t false 0

/-- One decoded hazard-assessment record (struct Detail,
src/summary.go:20-45).  The nullable wrapper types `qint`/`qfloat`
(a struct holding a possibly-nil pointer) become `Option Int` /
`Option ℚ`; `mintime` fields default to the zero instant. -/
structure Detail where
  objectName : String
  lastRun : GoTime
  h : Option ℚ
  rating : Option Int
  caDist : Option ℚ
  moid : Option ℚ
  neoScore : Option Int
  neo1kmScore : Option Int
  phaScore : Option Int
  ieoScore : Option Int
  geocentricScore : Option Int
  tisserandScore : Option Int
  unc : Option ℚ
  uncP1 : Option ℚ
  ra : String
  dec : String
  elong : String
  tEphem : GoTime
  rate : Option ℚ
  nObs : Option Int
  arc : Option ℚ
  vInf : Option ℚ
  rmsN : Option ℚ
  vmag : Option ℚ
deriving DecidableEq, Repr

/-- One decoded snapshot payload (struct Summary, src/summary.go:11-18);
the nested signature struct is flattened to its two fields. -/
structure Summary where
  count : String
  source : String
  version : String
  data : List Detail
deriving DecidableEq, Repr

/-- A value bound to one placeholder of the insert statement.  `qint.V` /
`qfloat.V` (src/summary.go:61-66, 82-87) return the Go `nil` interface for
an absent value, which the SQL driver binds as SQL NULL; `null` models
that binding, kept distinct by construction from every numeric value. -/
inductive SQLValue where
  | null
  | int (n : Int)
  | float (q : ℚ)
  | str (s : String)
  | time (t : GoTime)
deriving DecidableEq, Repr

/-- qint.V (src/summary.go:61-66): nil pointer binds as SQL NULL,
otherwise the stored integer. -/
def qintV : Option Int → SQLValue
  | none => .null
  | some n => .int n

/-- qfloat.V (src/summary.go:82-87): nil pointer binds as SQL NULL,
otherwise the stored number. -/
def qfloatV : Option ℚ → SQLValue
  | none => .null
  | some q => .float q

/-- One row of the `scout` table: the composite key plus the remaining
22 column values in the order of the insert statement
(src/main.go:236-244). -/
structure Row where
  objectName : String
  lastRun : GoTime
  cols : List SQLValue
deriving DecidableEq, Repr

/-- The row bound by the `stmt.Exec` call of src/main.go:259-284: the two
key columns, then every other column through `V()` for nullable fields,
the raw strings for the three free-text fields and the raw instant for
`tephem`. -/
def detailRow (d : Detail) : Row :=
  { objectName := d.objectName
    lastRun := d.lastRun
    cols := [qfloatV d.h, qintV d.rating, qfloatV d.caDist, qfloatV d.moid,
             qintV d.neoScore, qintV d.neo1kmScore, qintV d.phaScore, qintV d.ieoScore,
             qintV d.geocentricScore, qintV d.tisserandScore, qfloatV d.unc, qfloatV d.uncP1,
             .str d.ra, .str d.dec, .str d.elong, .time d.tEphem,
             qfloatV d.rate, qintV d.nObs, qfloatV d.arc, qfloatV d.vInf,
             qfloatV d.rmsN, qfloatV d.vmag] }

/-- The persisted contents of the `scout` table. -/
abbrev Table := List Row

/-- Whether a row with the given composite primary key
(`object_name`, `last_run`) is already present. -/
def keyExists (t : Table) (name : String) (lr : GoTime) : Bool :=
  t.any fun r => decide (r.objectName = name ∧ r.lastRun = lr)

/-- One execution of the prepared `INSERT ... ON CONFLICT DO NOTHING`
statement: a duplicate composite key affects zero rows and leaves the
table unchanged; a new key appends the row and affects one row.  Returns
the new table and the driver's `RowsAffected` count. -/
def execInsertOne (t : Table) (d : Detail) : Table × Nat :=
  if keyExists t d.objectName d.lastRun then (t, 0)
  else (t ++ [detailRow d], 1)

/-- Observable database and network actions, recorded as a trace. -/
inductive Ev where
  | connect
  | execSchema
  | prepareStmt
  | beginTx
  | execInsert (objectName : String) (lastRun : GoTime)
  | commitTx
  | rollbackTx
  | httpGet
  | createCache (name : String)
deriving DecidableEq, Repr

/-- The inner record loop of writeSummaries (src/main.go:257-291) over one
snapshot's records: `cand` and `ins` thread the `candidates` and
`inserted` counters; `execFail i` injects a non-conflict execution error
on the i-th statement execution of the run (0-based), after which the
source rolls back and returns.

The statement is prepared on the `*sql.DB` (src/main.go:236) while the
transaction of src/main.go:252 is open; per `database/sql` semantics a
DB-prepared statement executes on a pool connection *outside* that
transaction, so each successful insert takes effect immediately and is
not undone by `tx.Rollback()` (src/main.go:286).  The model therefore
keeps the table mutations of the already-executed inserts on the failure
path; the trailing `Bool` reports whether the loop aborted. -/
def insertDetails (execFail : Nat → Bool) :
    List Detail → Table → Nat → Nat → Table × List Ev × Nat × Nat × Bool
  | [], t, cand, ins => (t, [], cand, ins, false)
  | d :: rest, t, cand, ins =>
    if execFail cand then
      (t, [.execInsert d.objectName d.lastRun], cand + 1, ins, true)
    else
      let (t', n) := execInsertOne t d
      let (t'', evs, c', i', ab) := insertDetails execFail rest t' (cand + 1) (ins + n)
      (t'', .execInsert d.objectName d.lastRun :: evs, c', i', ab)

/-- The outer snapshot loop of writeSummaries (src/main.go:256). -/
def insertSummaries (execFail : Nat → Bool) :
    List Summary → Table → Nat → Nat → Table × List Ev × Nat × Nat × Bool
  | [], t, cand, ins => (t, [], cand, ins, false)
  | s :: rest, t, cand, ins =>
    let (t', evs, c', i', ab) := insertDetails execFail s.data t cand ins
    if ab then (t', evs, c', i', true)
    else
      let (t'', evs2, c'', i'', ab2) := insertSummaries execFail rest t' c' i'
      (t'', evs ++ evs2, c'', i'', ab2)

/-- writeSummaries (src/main.go:223-301): connect, issue the idempotent
schema DDL, prepare the conflict-tolerant insert, begin a transaction,
run every record of every snapshot through the prepared statement, then
roll back and return the error on an execution failure or commit and
report `(inserted, candidates - inserted)` — the numbers of the final log
line — on success. -/
def writeSummariesGo (execFail : Nat → Bool) (summaries : List Summary) (t : Table) :
    Table × List Ev × Except String (Nat × Nat) :=
  let pre : List Ev := [.connect, .execSchema, .prepareStmt, .beginTx]
  let (t', evs, cand, ins, ab) := insertSummaries execFail summaries t 0 0
  if ab then (t', pre ++ evs ++ [.rollbackTx], .error "exec: injected failure")
  else (t', pre ++ evs ++ [.commitTx], .ok (ins, cand - ins))

/-- Outcome of `json.NewDecoder(r).Decode(&summary)` on one byte source:
either a decode error with its message or a decoded Summary.  The JSON
text itself is abstracted to this outcome; the byte-level grammar is not
re-modelled. -/
inductive JsonOut where
  | jerr (msg : String)
  | jok (s : Summary)
deriving DecidableEq, Repr

/-- One entry of the cache directory as seen through `os.Stat` /
`ioutil.ReadDir`: its name, whether its mode is a regular file, its
modification time in epoch seconds, and what decoding its contents
yields. -/
structure CacheFile where
  name : String
  regular : Bool
  modTime : Int
  content : JsonOut
deriving DecidableEq, Repr

/-- The cache directory: `none` when the directory does not exist
(`os.IsNotExist` on `os.Stat`), otherwise its file listing. -/
abbrev CacheDir := Option (List CacheFile)

/-- cacheModifiedSince (src/main.go:123-143): false for a missing
directory; otherwise true iff some regular file's modification time is
strictly after the threshold (`fi.ModTime().After(t)`). -/
def cacheModifiedSince (t : Int) (dir : CacheDir) : Bool :=
  match dir with
  | none => false
  | some files => files.any fun fi => fi.regular && decide (t < fi.modTime)

/-- The cache-entry scan of replayFromCache (src/main.go:169-192):
non-regular entries are skipped; a decode failure on any entry aborts the
whole replay with a `decode: failed to decode <name>` error; an entry
whose version is not "1.2" is logged and skipped; every other entry's
summary is collected in listing order. -/
def collectSummaries : List CacheFile → Except String (List Summary)
  | [] => .ok []
  | f :: rest =>
    if f.regular then
      match f.content with
      | .jerr e => .error ("decode: failed to decode " ++ f.name ++ ": " ++ e)
      | .jok s =>
        if s.version = "1.2" then
          match collectSummaries rest with
          | .error msg => .error msg
          | .ok ss => .ok (s :: ss)
        else collectSummaries rest
    else collectSummaries rest

/-- Run outcomes distinguishable to the operator: the replay found no
cache directory and returned at once; a live fetch was skipped because
the cache is fresh ("nothing to do"); or records were written and the
final log line reported `(inserted, duplicates)`. -/
inductive RunOut where
  | noDir
  | freshSkip
  | wrote (inserted dup : Nat)
deriving DecidableEq, Repr

/-- replayFromCache (src/main.go:157-197): a missing cache directory
returns nil immediately — before any database work; otherwise the
entries are scanned and the collected summaries are passed to
writeSummaries as one unit. -/
def replayGo (execFail : Nat → Bool) (dir : CacheDir) (t : Table) :
    Table × List Ev × Except String RunOut :=
  match dir with
  | none => (t, [], .ok .noDir)
  | some files =>
    match collectSummaries files with
    | .error msg => (t, [], .error msg)
    | .ok ss =>
      let (t', evs, r) := writeSummariesGo execFail ss t
      (t', evs, match r with
                | .error e => .error e
                | .ok (ins, dup) => .ok (.wrote ins dup))

/-- minTimeBetweenFetches (src/main.go:46), in seconds. -/
def minGapSec : Int := 15 * 60

/-- What one HTTP GET of the feed yields: the status code and the decode
outcome of its body stream. -/
structure FetchResp where
  status : Nat
  body : JsonOut
deriving DecidableEq, Repr

/-- The live-fetch path of Main (src/main.go:76-121) at wall-clock time
`now`: skip everything when the cache holds a file modified within the
last 15 minutes; otherwise GET the feed, fail on a non-200 status, create
a cache entry named `<epoch-seconds>.json` (creating the directory when
absent), tee the body into it while decoding, fail on a decode error or
on a schema version other than "1.2" — in both cases the already-written
cache entry stays on disk, since nothing ever deletes it — and hand the
single decoded summary to writeSummaries.  A cache entry written by a
successful decode holds the full payload, so re-decoding it yields the
same outcome as the live decode; `content := resp.body` records that. -/
def mainLiveGo (execFail : Nat → Bool) (now : Int) (resp : FetchResp)
    (dir : CacheDir) (t : Table) :
    CacheDir × Table × List Ev × Except String RunOut :=
  if cacheModifiedSince (now - minGapSec) dir then (dir, t, [], .ok .freshSkip)
  else if resp.status ≠ 200 then (dir, t, [.httpGet], .error "fetch: bad response")
  else
    let fname := toString now ++ ".json"
    let entry : CacheFile := ⟨fname, true, now, resp.body⟩
    let dir' : CacheDir := some ((dir.getD []) ++ [entry])
    match resp.body with
    | .jerr e => (dir', t, [.httpGet, .createCache fname], .error ("decode: " ++ e))
    | .jok s =>
      if s.version = "1.2" then
        let (t', evs, r) := writeSummariesGo execFail [s] t
        (dir', t', .httpGet :: .createCache fname :: evs,
         match r with
         | .error e => .error e
         | .ok (ins, dup) => .ok (.wrote ins dup))
      else
        (dir', t, [.httpGet, .createCache fname],
         .error ("summary: unknown version found: " ++ s.version))

/-- Byte of the response stream (abstract). -/
abbrev Byte := Nat

/-- The two destinations of the tee'd response stream: the bytes written
to the cache file so far and the bytes handed to the JSON decoder so
far. -/
structure TeeSt where
  disk : List Byte
  fed : List Byte
deriving DecidableEq, Repr

/-- io.TeeReader semantics (stdlib, wired at src/main.go:107): each Read
pulls one chunk from the network stream, writes it to the cache file, and
only a successful write hands the chunk to the caller; a failed write is
surfaced as the read's error.  `teeRun chunks k i st` runs the decoder's
next `k` pulls against the remaining `chunks`, with `writeOk j` telling
whether the j-th disk write succeeds; it returns the final state and
`some j` when write `j` failed (aborting the fetch). -/
def teeRun (writeOk : Nat → Bool) :
    List (List Byte) → Nat → Nat → TeeSt → TeeSt × Option Nat
  | _, 0, _, st => (st, none)
  | [], _ + 1, _, st => (st, none)
  | c :: rest, k + 1, i, st =>
    if writeOk i then teeRun writeOk rest k (i + 1) ⟨st.disk ++ c, st.fed ++ c⟩
    else (st, some i)

/-! ### Shared helper lemmas and concrete fixtures -/

/-- A record with the given key and every optional field absent; the
smallest record the insert loop can bind. -/
def mkDet (name : String) (lr : GoTime) : Detail :=
  { objectName := name, lastRun := lr, h := none, rating := none, caDist := none,
    moid := none, neoScore := none, neo1kmScore := none, phaScore := none,
    ieoScore := none, geocentricScore := none, tisserandScore := none, unc := none,
    uncP1 := none, ra := "", dec := "", elong := "", tEphem := GoTime.zero,
    rate := none, nObs := none, arc := none, vInf := none, rmsN := none, vmag := none }

/-- Analysis-run timestamp used by the concrete scenarios. -/
def runT : GoTime := ⟨2025, 1, 1, 0, 0⟩

/-- A five-record snapshot with distinct object names, version "1.2". -/
def fiveSum : Summary :=
  ⟨"5", "NASA/JPL", "1.2",
   [mkDet "A" runT, mkDet "B" runT, mkDet "C" runT, mkDet "D" runT, mkDet "E" runT]⟩

/-- A regular cache file whose modification time makes the cache fresh. -/
lemma fresh_of_mem {t : Int} {files : List CacheFile} (fi : CacheFile)
    (hmem : fi ∈ files) (hreg : fi.regular = true) (ht : t < fi.modTime) :
    cacheModifiedSince t (some files) = true := by
  simp only [cacheModifiedSince, List.any_eq_true]
  exact ⟨fi, hmem, by simp [hreg, ht]⟩

/-- Scanning a listing with no regular file collects nothing. -/
lemma collect_nonregular (files : List CacheFile) (h : ∀ f ∈ files, f.regular = false) :
    collectSummaries files = .ok [] := by
  induction files with
  | nil => rfl
  | cons f rest ih =>
    have hf := h f (by simp)
    simp only [collectSummaries, hf]
    simp only [Bool.false_eq_true, if_false]
    exact ih fun g hg => h g (by simp [hg])

/-! ### C1 -/

/-- C1: the claim says a non-conflict execution failure on the 3rd of 5
records rolls the whole transaction back and leaves zero rows persisted.
The code does not satisfy this: the insert statement is prepared on the
`*sql.DB` (src/main.go:236), so each execution runs on a pool connection
outside the transaction opened at src/main.go:252 and commits
immediately; `tx.Rollback()` (src/main.go:286) undoes nothing.  Run on an
empty table with an injected failure on the 3rd record, the first two
records remain persisted and the run aborts with the execution error. -/
theorem c1_failure_leaves_partial_rows :
    writeSummariesGo (fun i => decide (i = 2)) [fiveSum] [] =
      ([detailRow (mkDet "A" runT), detailRow (mkDet "B" runT)],
       [.connect, .execSchema, .prepareStmt, .beginTx,
        .execInsert "A" runT, .execInsert "B" runT, .execInsert "C" runT, .rollbackTx],
       .error "exec: injected failure") := by
  rfl

/-! ### C5 -/

/-- C5: `cacheModifiedSince t` is true iff the cache directory exists and
holds at least one regular file modified strictly after `t`; a missing or
empty directory yields false, not an error; and a live invocation made
while the cache holds a regular file fetched less than 15 minutes ago
performs no network call and succeeds with the "nothing to do" outcome,
leaving cache and table untouched. -/
theorem c5_freshness_gate :
    (∀ (t : Int) (dir : CacheDir),
        cacheModifiedSince t dir = true ↔
          ∃ files, dir = some files ∧ ∃ fi ∈ files, fi.regular = true ∧ t < fi.modTime) ∧
    (∀ t : Int, cacheModifiedSince t none = false ∧ cacheModifiedSince t (some []) = false) ∧
    (∀ (execFail : Nat → Bool) (now : Int) (resp : FetchResp) (files : List CacheFile)
        (tb : Table) (fi : CacheFile),
        fi ∈ files → fi.regular = true → now - fi.modTime < minGapSec →
        mainLiveGo execFail now resp (some files) tb = (some files, tb, [], .ok .freshSkip)) := by
  refine ⟨?_, ?_, ?_⟩
  · intro t dir
    cases dir with
    | none => simp [cacheModifiedSince]
    | some files =>
      simp only [cacheModifiedSince, List.any_eq_true, Bool.and_eq_true, decide_eq_true_eq,
        Option.some.injEq]
      constructor
      · rintro ⟨fi, hmem, hreg, ht⟩
        exact ⟨files, rfl, fi, hmem, hreg, ht⟩
      · rintro ⟨files', hf, fi, hmem, hreg, ht⟩
        cases hf
        exact ⟨fi, hmem, hreg, ht⟩
  · intro t; exact ⟨rfl, rfl⟩
  · intro execFail now resp files tb fi hmem hreg hgap
    have hfresh : cacheModifiedSince (now - minGapSec) (some files) = true :=
      fresh_of_mem fi hmem hreg (by omega)
    simp [mainLiveGo, hfresh]

/-- C5 witness: a cache with one regular file written at epoch second
1000 is fresh for threshold 500, a missing and an empty directory are
not, and an invocation at epoch second 1500 (500 seconds later) skips the
fetch. -/
theorem c5_freshness_gate_witness :
    cacheModifiedSince 500 (some [⟨"1000.json", true, 1000, .jerr "x"⟩]) = true ∧
    cacheModifiedSince 500 none = false ∧
    mainLiveGo (fun _ => false) 1500 ⟨200, .jerr "x"⟩
        (some [⟨"1000.json", true, 1000, .jerr "x"⟩]) [] =
      (some [⟨"1000.json", true, 1000, .jerr "x"⟩], [], [], .ok .freshSkip) := by
  refine ⟨?_, (c5_freshness_gate.2.1 500).1, ?_⟩
  · exact (c5_freshness_gate.1 500 _).2
      ⟨[⟨"1000.json", true, 1000, .jerr "x"⟩], rfl, ⟨"1000.json", true, 1000, .jerr "x"⟩,
        by simp, rfl, by norm_num⟩
  · exact c5_freshness_gate.2.2 (fun _ => false) 1500 ⟨200, .jerr "x"⟩ _ []
      ⟨"1000.json", true, 1000, .jerr "x"⟩ (by simp) rfl (by norm_num [minGapSec])

/-! ### C10 -/

/-- C10: replay with an absent cache directory returns success at once
with no database action at all; replay over an existing directory with no
regular files still connects, issues the schema DDL, prepares the insert
and commits a transaction containing zero inserts; in both cases the
table is unchanged. -/
theorem c10_replay_frame :
    (∀ (execFail : Nat → Bool) (tb : Table),
        replayGo execFail none tb = (tb, [], .ok .noDir)) ∧
    (∀ (execFail : Nat → Bool) (tb : Table) (files : List CacheFile),
        (∀ f ∈ files, f.regular = false) →
        replayGo execFail (some files) tb =
          (tb, [.connect, .execSchema, .prepareStmt, .beginTx, .commitTx],
           .ok (.wrote 0 0))) := by
  refine ⟨fun _ _ => rfl, ?_⟩
  intro execFail tb files h
  simp [replayGo, collect_nonregular files h, writeSummariesGo, insertSummaries]

/-- C10 witness: a directory holding only a non-regular entry (e.g. a
subdirectory) leads to an empty committed transaction over an unchanged
table. -/
theorem c10_replay_frame_witness :
    replayGo (fun _ => false) (some [⟨"sub", false, 0, .jerr "dir"⟩]) [] =
      ([], [.connect, .execSchema, .prepareStmt, .beginTx, .commitTx], .ok (.wrote 0 0)) :=
  c10_replay_frame.2 (fun _ => false) [] _ (by simp)

/-! ### C9 -/

/-- C9: a live fetch whose payload declares a version other than "1.2"
aborts with an error, but only after the cache entry was created and the
payload written to it; the rejected entry stays on disk, and since the
freshness check counts any regular cache file, every live invocation in
the following 15 minutes makes no network call and succeeds having
persisted nothing. -/
theorem c9_stale_rejected_payload :
    ∀ (execFail : Nat → Bool) (now now2 : Int) (resp resp2 : FetchResp) (dir : CacheDir)
      (tb : Table) (s : Summary),
      cacheModifiedSince (now - minGapSec) dir = false →
      resp.status = 200 → resp.body = .jok s → s.version ≠ "1.2" →
      mainLiveGo execFail now resp dir tb =
        (some (dir.getD [] ++ [⟨toString now ++ ".json", true, now, .jok s⟩]), tb,
         [.httpGet, .createCache (toString now ++ ".json")],
         .error ("summary: unknown version found: " ++ s.version)) ∧
      (now2 - now < minGapSec →
        mainLiveGo execFail now2 resp2
            (some (dir.getD [] ++ [⟨toString now ++ ".json", true, now, .jok s⟩])) tb =
          (some (dir.getD [] ++ [⟨toString now ++ ".json", true, now, .jok s⟩]), tb, [],
           .ok .freshSkip)) := by
  intro execFail now now2 resp resp2 dir tb s hfresh hstat hbody hver
  constructor
  · simp [mainLiveGo, hfresh, hstat, hbody, hver]
  · intro hgap
    have hfresh2 : cacheModifiedSince (now2 - minGapSec)
        (some (dir.getD [] ++ [⟨toString now ++ ".json", true, now, .jok s⟩])) = true :=
      fresh_of_mem ⟨toString now ++ ".json", true, now, .jok s⟩
        (by simp) rfl (by show now2 - minGapSec < now; omega)
    simp [mainLiveGo, hfresh2]

/-- C9 witness: at epoch second 2000 with an empty cache, a version-"9.9"
payload is cached and rejected; a retry 600 seconds later does nothing
and succeeds. -/
theorem c9_stale_rejected_payload_witness :
    mainLiveGo (fun _ => false) 2000 ⟨200, .jok ⟨"0", "src", "9.9", []⟩⟩ none [] =
      (some [⟨"2000.json", true, 2000, .jok ⟨"0", "src", "9.9", []⟩⟩], [],
       [.httpGet, .createCache "2000.json"],
       .error ("summary: unknown version found: " ++ "9.9")) ∧
    mainLiveGo (fun _ => false) 2600 ⟨200, .jok ⟨"0", "src", "9.9", []⟩⟩
        (some [⟨"2000.json", true, 2000, .jok ⟨"0", "src", "9.9", []⟩⟩]) [] =
      (some [⟨"2000.json", true, 2000, .jok ⟨"0", "src", "9.9", []⟩⟩], [], [],
       .ok .freshSkip) := by
  have h := c9_stale_rejected_payload (fun _ => false) 2000 2600
    ⟨200, .jok ⟨"0", "src", "9.9", []⟩⟩ ⟨200, .jok ⟨"0", "src", "9.9", []⟩⟩ none []
    ⟨"0", "src", "9.9", []⟩ rfl rfl rfl (by decide)
  exact ⟨h.1, h.2 (by norm_num [minGapSec])⟩

/-! ### C7 -/

/-- Running the tee with every disk write succeeding consumes
`min k |chunks|` chunks and mirrors them, in order, to both the cache
file and the decoder. -/
lemma teeRun_all_ok :
    ∀ (chunks : List (List Byte)) (k i : Nat) (st : TeeSt),
      teeRun (fun _ => true) chunks k i st =
        (⟨st.disk ++ (chunks.take k).flatten, st.fed ++ (chunks.take k).flatten⟩, none) := by
  intro chunks
  induction chunks with
  | nil =>
    intro k i st
    cases st
    cases k <;> simp [teeRun]
  | cons c rest ih =>
    intro k i st
    cases k with
    | zero => cases st; simp [teeRun]
    | succ k =>
      simp [teeRun, ih k (i + 1) ⟨st.disk ++ c, st.fed ++ c⟩, List.take_succ_cons,
        List.flatten_cons, List.append_assoc]

/-- If the first failing disk write is the j-th one and the decoder would
still be pulling at that point, the tee stops there: exactly the first j
chunks are on disk and were handed on, and the failure index is
surfaced. -/
lemma teeRun_first_fail (writeOk : Nat → Bool) :
    ∀ (j : Nat) (chunks : List (List Byte)) (k i : Nat) (st : TeeSt),
      (∀ x, x < j → writeOk (i + x) = true) → writeOk (i + j) = false →
      j < k → j < chunks.length →
      teeRun writeOk chunks k i st =
        (⟨st.disk ++ (chunks.take j).flatten, st.fed ++ (chunks.take j).flatten⟩,
         some (i + j)) := by
  intro j
  induction j with
  | zero =>
    intro chunks k i st hok hf hk hl
    cases chunks with
    | nil => simp at hl
    | cons c rest =>
      cases k with
      | zero => omega
      | succ k =>
        have hf0 : writeOk i = false := by simpa using hf
        cases st
        simp [teeRun, hf0]
  | succ j ih =>
    intro chunks k i st hok hf hk hl
    cases chunks with
    | nil => simp at hl
    | cons c rest =>
      cases k with
      | zero => omega
      | succ k =>
        have h0 : writeOk i = true := by simpa using hok 0 (by omega)
        have hrec := ih rest k (i + 1) ⟨st.disk ++ c, st.fed ++ c⟩
          (fun x hx => by
            have := hok (x + 1) (by omega)
            simpa [show i + (x + 1) = i + 1 + x by omega] using this)
          (by simpa [show i + (j + 1) = i + 1 + j by omega] using hf)
          (by omega) (by simpa using hl)
        have hidx : i + 1 + j = i + (j + 1) := by omega
        cases st
        simp [teeRun, h0, hrec, hidx, List.take_succ_cons, List.flatten_cons,
          List.append_assoc]

/-- C7: the tee'd response stream keeps the decoder's bytes on disk at
all times — starting from equal states, the cache file and the decoder
have received exactly the same bytes after any number of pulls; with all
writes succeeding, consuming k chunks leaves precisely those chunks'
bytes persisted (so a decode failure partway still has the partial
payload captured); a disk-write failure during the fan-out stops the
stream at that point, and on the live path a decode failure nevertheless
leaves the cache entry on disk while aborting the fetch. -/
theorem c7_tee_capture :
    (∀ (writeOk : Nat → Bool) (chunks : List (List Byte)) (k i : Nat) (st : TeeSt),
        st.disk = st.fed →
        (teeRun writeOk chunks k i st).1.disk = (teeRun writeOk chunks k i st).1.fed) ∧
    (∀ (chunks : List (List Byte)) (k : Nat),
        teeRun (fun _ => true) chunks k 0 ⟨[], []⟩ =
          (⟨(chunks.take k).flatten, (chunks.take k).flatten⟩, none)) ∧
    (∀ (writeOk : Nat → Bool) (chunks : List (List Byte)) (k j : Nat),
        (∀ x, x < j → writeOk x = true) → writeOk j = false → j < k → j < chunks.length →
        teeRun writeOk chunks k 0 ⟨[], []⟩ =
          (⟨(chunks.take j).flatten, (chunks.take j).flatten⟩, some j)) ∧
    (∀ (execFail : Nat → Bool) (now : Int) (resp : FetchResp) (dir : CacheDir)
        (tb : Table) (e : String),
        cacheModifiedSince (now - minGapSec) dir = false → resp.status = 200 →
        resp.body = .jerr e →
        mainLiveGo execFail now resp dir tb =
          (some (dir.getD [] ++ [⟨toString now ++ ".json", true, now, .jerr e⟩]), tb,
           [.httpGet, .createCache (toString now ++ ".json")],
           .error ("decode: " ++ e))) := by
  refine ⟨?_, ?_, ?_, ?_⟩
  · intro writeOk chunks
    induction chunks with
    | nil => intro k i st h; cases k <;> simpa [teeRun]
    | cons c rest ih =>
      intro k i st h
      cases k with
      | zero => simpa [teeRun]
      | succ k =>
        by_cases hw : writeOk i
        · simpa [teeRun, hw] using ih k (i + 1) ⟨st.disk ++ c, st.fed ++ c⟩ (by simp [h])
        · simpa [teeRun, hw]
  · intro chunks k
    simpa using teeRun_all_ok chunks k 0 ⟨[], []⟩
  · intro writeOk chunks k j hok hf hk hl
    simpa using teeRun_first_fail writeOk j chunks k 0 ⟨[], []⟩ (by simpa using hok)
      (by simpa using hf) hk hl
  · intro execFail now resp dir tb e hfresh hstat hbody
    simp [mainLiveGo, hfresh, hstat, hbody]

/-- C7 witness: three two-byte chunks; with all writes succeeding, a
decoder that stops after two pulls has exactly those four bytes on disk;
with the second write failing, the stream aborts at index 1 with the
first chunk captured; and a concrete live fetch whose body fails to
decode still leaves the cache entry behind. -/
theorem c7_tee_capture_witness :
    teeRun (fun _ => true) [[1, 2], [3, 4], [5, 6]] 2 0 ⟨[], []⟩ =
      (⟨[1, 2, 3, 4], [1, 2, 3, 4]⟩, none) ∧
    teeRun (fun i => decide (i ≠ 1)) [[1, 2], [3, 4], [5, 6]] 3 0 ⟨[], []⟩ =
      (⟨[1, 2], [1, 2]⟩, some 1) ∧
    mainLiveGo (fun _ => false) 3000 ⟨200, .jerr "unexpected EOF"⟩ none [] =
      (some [⟨"3000.json", true, 3000, .jerr "unexpected EOF"⟩], [],
       [.httpGet, .createCache "3000.json"], .error ("decode: " ++ "unexpected EOF")) := by
  refine ⟨?_, ?_, ?_⟩
  · simpa using c7_tee_capture.2.1 [[1, 2], [3, 4], [5, 6]] 2
  · simpa using c7_tee_capture.2.2.1 (fun i => decide (i ≠ 1)) [[1, 2], [3, 4], [5, 6]] 3 1
      (by decide) (by decide) (by decide) (by decide)
  · exact c7_tee_capture.2.2.2 (fun _ => false) 3000 ⟨200, .jerr "unexpected EOF"⟩ none []
      "unexpected EOF" rfl rfl rfl

/-! ### C4 -/

/-- Which cache entries pass the replay scan: regular files that decode
and declare version "1.2".  Specification-side description of the set
the scan must keep. -/
def passOk (f : CacheFile) : Option Summary :=
  if f.regular then
    match f.content with
    | .jok s => if s.version = "1.2" then some s else none
    | .jerr _ => none
  else none

/-- When every regular entry decodes, the scan keeps exactly the
version-"1.2" summaries, in listing order. -/
lemma collect_all_decode (files : List CacheFile)
    (h : ∀ f ∈ files, f.regular = true → ∃ s, f.content = .jok s) :
    collectSummaries files = .ok (files.filterMap passOk) := by
  induction files with
  | nil => rfl
  | cons f rest ih =>
    have ihr := ih fun g hg => h g (by simp [hg])
    by_cases hr : f.regular = true
    · obtain ⟨s, hs⟩ := h f (by simp) hr
      by_cases hv : s.version = "1.2"
      · simp [collectSummaries, passOk, hr, hs, hv, ihr]
      · simp [collectSummaries, passOk, hr, hs, hv, ihr]
    · simp [collectSummaries, passOk, hr, ihr]

/-- A decode failure on any regular entry makes the whole scan fail. -/
lemma collect_decode_failure (files : List CacheFile)
    (h : ∃ f ∈ files, f.regular = true ∧ ∃ e, f.content = .jerr e) :
    ∃ msg, collectSummaries files = .error msg := by
  induction files with
  | nil => simp at h
  | cons f rest ih =>
    obtain ⟨g, hg, hreg, e, he⟩ := h
    rcases List.mem_cons.mp hg with rfl | hgr
    · exact ⟨"decode: failed to decode " ++ g.name ++ ": " ++ e,
        by simp [collectSummaries, hreg, he]⟩
    · by_cases hr : f.regular = true
      · cases hc : f.content with
        | jerr e' =>
          exact ⟨"decode: failed to decode " ++ f.name ++ ": " ++ e',
            by simp [collectSummaries, hr, hc]⟩
        | jok s =>
          obtain ⟨msg, hmsg⟩ := ih ⟨g, hgr, hreg, e, he⟩
          by_cases hv : s.version = "1.2"
          · exact ⟨msg, by simp [collectSummaries, hr, hc, hv, hmsg]⟩
          · exact ⟨msg, by simp [collectSummaries, hr, hc, hv, hmsg]⟩
      · obtain ⟨msg, hmsg⟩ := ih ⟨g, hgr, hreg, e, he⟩
        exact ⟨msg, by simp [collectSummaries, hr, hmsg]⟩

/-- C4: in replay mode every entry is decoded independently: when all
regular entries decode, the scan passes exactly the version-"1.2"
summaries — skipping exactly the version-mismatched entries, a fact
stable under any reordering of the listing — and hands them to the
ingestion writer as one unit; a JSON decode failure on any one regular
entry aborts the whole replay as a fatal error before any database
work. -/
theorem c4_replay_skip_exactly :
    (∀ files : List CacheFile,
        (∀ f ∈ files, f.regular = true → ∃ s, f.content = .jok s) →
        collectSummaries files = .ok (files.filterMap passOk)) ∧
    (∀ (execFail : Nat → Bool) (tb : Table) (files : List CacheFile),
        (∃ f ∈ files, f.regular = true ∧ ∃ e, f.content = .jerr e) →
        ∃ msg, collectSummaries files = .error msg ∧
          replayGo execFail (some files) tb = (tb, [], .error msg)) ∧
    (∀ files files' : List CacheFile, files.Perm files' →
        (files.filterMap passOk).Perm (files'.filterMap passOk)) ∧
    (∀ (execFail : Nat → Bool) (tb : Table) (files : List CacheFile) (ss : List Summary),
        collectSummaries files = .ok ss →
        replayGo execFail (some files) tb =
          ((writeSummariesGo execFail ss tb).1, (writeSummariesGo execFail ss tb).2.1,
           match (writeSummariesGo execFail ss tb).2.2 with
           | .error e => .error e
           | .ok (ins, dup) => .ok (.wrote ins dup))) := by
  refine ⟨collect_all_decode, ?_, fun _ _ h => h.filterMap passOk, ?_⟩
  · intro execFail tb files h
    obtain ⟨msg, hmsg⟩ := collect_decode_failure files h
    exact ⟨msg, hmsg, by simp [replayGo, hmsg]⟩
  · intro execFail tb files ss hc
    simp only [replayGo, hc]

/-- C4 witness: a listing with one valid entry, one version-"1.1" entry,
one subdirectory and a second valid entry collects exactly the two valid
summaries in listing order. -/
theorem c4_replay_skip_exactly_witness :
    collectSummaries
        [⟨"a.json", true, 0, .jok ⟨"1", "s", "1.2", []⟩⟩,
         ⟨"b.json", true, 0, .jok ⟨"1", "s", "1.1", []⟩⟩,
         ⟨"sub", false, 0, .jerr "is a directory"⟩,
         ⟨"c.json", true, 0, .jok ⟨"2", "s", "1.2", [mkDet "X" runT]⟩⟩] =
      .ok [⟨"1", "s", "1.2", []⟩, ⟨"2", "s", "1.2", [mkDet "X" runT]⟩] := by
  have h := c4_replay_skip_exactly.1
    [⟨"a.json", true, 0, .jok ⟨"1", "s", "1.2", []⟩⟩,
     ⟨"b.json", true, 0, .jok ⟨"1", "s", "1.1", []⟩⟩,
     ⟨"sub", false, 0, .jerr "is a directory"⟩,
     ⟨"c.json", true, 0, .jok ⟨"2", "s", "1.2", [mkDet "X" runT]⟩⟩]
    (by
      intro f hf hreg
      simp only [List.mem_cons, List.not_mem_nil, or_false] at hf
      rcases hf with rfl | rfl | rfl | rfl
      · exact ⟨_, rfl⟩
      · exact ⟨_, rfl⟩
      · exact absurd hreg (by decide)
      · exact ⟨_, rfl⟩)
  exact h.trans (by rfl)

/-! ### C6 -/

/-- Recognizer for statement-execution events. -/
def isInsEv : Ev → Bool
  | .execInsert _ _ => true
  | _ => false

/-- Number of candidate records across a batch of snapshots. -/
def totalRecords (ss : List Summary) : Nat := (ss.map fun s => s.data.length).sum

/-- With no execution failures, the record loop counts every record as a
candidate, inserts some `k ≤ |ds|` of them — growing the table by exactly
`k` rows — and emits only statement-execution events. -/
lemma insertDetails_no_fail (ds : List Detail) :
    ∀ (tb : Table) (cand ins : Nat),
      ∃ t' evs k,
        insertDetails (fun _ => false) ds tb cand ins =
          (t', evs, cand + ds.length, ins + k, false) ∧
        t'.length = tb.length + k ∧ k ≤ ds.length ∧ evs.all isInsEv = true := by
  induction ds with
  | nil =>
    intro tb cand ins
    exact ⟨tb, [], 0, by simp [insertDetails], by simp, by simp, rfl⟩
  | cons d rest ih =>
    intro tb cand ins
    by_cases hk : keyExists tb d.objectName d.lastRun
    · obtain ⟨t', evs, k, hin, hlen, hkk, hall⟩ := ih tb (cand + 1) ins
      refine ⟨t', .execInsert d.objectName d.lastRun :: evs, k, ?_, hlen, ?_, ?_⟩
      · have h1 : cand + (d :: rest).length = cand + 1 + rest.length := by simp; omega
        rw [h1]
        simp [insertDetails, execInsertOne, hk, hin]
      · simp; omega
      · simp [isInsEv, hall]
    · obtain ⟨t', evs, k, hin, hlen, hkk, hall⟩ :=
        ih (tb ++ [detailRow d]) (cand + 1) (ins + 1)
      refine ⟨t', .execInsert d.objectName d.lastRun :: evs, k + 1, ?_, ?_, ?_, ?_⟩
      · have h1 : cand + (d :: rest).length = cand + 1 + rest.length := by simp; omega
        have h2 : ins + (k + 1) = ins + 1 + k := by omega
        rw [h1, h2]
        simp [insertDetails, execInsertOne, hk, hin]
      · simp at hlen; omega
      · simp; omega
      · simp [isInsEv, hall]

/-- The snapshot loop accumulates the record loop's counts over the whole
batch. -/
lemma insertSummaries_no_fail (ss : List Summary) :
    ∀ (tb : Table) (cand ins : Nat),
      ∃ t' evs k,
        insertSummaries (fun _ => false) ss tb cand ins =
          (t', evs, cand + totalRecords ss, ins + k, false) ∧
        t'.length = tb.length + k ∧ k ≤ totalRecords ss ∧ evs.all isInsEv = true := by
  induction ss with
  | nil =>
    intro tb cand ins
    exact ⟨tb, [], 0, by simp [insertSummaries, totalRecords], by simp, by simp, rfl⟩
  | cons s rest ih =>
    intro tb cand ins
    obtain ⟨t1, evs1, k1, hin1, hlen1, hk1, hall1⟩ := insertDetails_no_fail s.data tb cand ins
    obtain ⟨t2, evs2, k2, hin2, hlen2, hk2, hall2⟩ :=
      ih t1 (cand + s.data.length) (ins + k1)
    refine ⟨t2, evs1 ++ evs2, k1 + k2, ?_, by omega, ?_, ?_⟩
    · have h1 : cand + totalRecords (s :: rest) =
          cand + s.data.length + totalRecords rest := by
        simp [totalRecords]; omega
      have h2 : ins + (k1 + k2) = ins + k1 + k2 := by omega
      rw [h1, h2]
      simp [insertSummaries, hin1, hin2]
    · have hT : totalRecords (s :: rest) = s.data.length + totalRecords rest := by
        simp [totalRecords]
      omega
    · simp only [List.all_append, hall1, hall2, Bool.and_self]

/-- C6: on a successfully ingested batch, a record whose composite key
already exists is a silent no-op affecting zero rows; the transaction is
begun once and committed once with no rollback; and the reported pair is
`(inserted, candidates - inserted)` where candidates is the total record
count across the batch and inserted is exactly the number of rows the
table grew by. -/
theorem c6_success_report :
    (∀ (ss : List Summary) (tb : Table),
        ∃ ins,
          (writeSummariesGo (fun _ => false) ss tb).2.2 =
            .ok (ins, totalRecords ss - ins) ∧
          ins ≤ totalRecords ss ∧
          (writeSummariesGo (fun _ => false) ss tb).1.length = tb.length + ins ∧
          (writeSummariesGo (fun _ => false) ss tb).2.1.count .commitTx = 1 ∧
          (writeSummariesGo (fun _ => false) ss tb).2.1.count .beginTx = 1 ∧
          (writeSummariesGo (fun _ => false) ss tb).2.1.count .rollbackTx = 0) ∧
    (∀ (tb : Table) (d : Detail), keyExists tb d.objectName d.lastRun = true →
        execInsertOne tb d = (tb, 0)) := by
  constructor
  · intro ss tb
    obtain ⟨t', evs, k, hin, hlen, hk, hall⟩ := insertSummaries_no_fail ss tb 0 0
    have hno : ∀ e : Ev, isInsEv e = false → evs.count e = 0 := by
      intro e he
      refine List.count_eq_zero.mpr fun hmem => ?_
      have := List.all_eq_true.mp hall e hmem
      rw [he] at this
      exact Bool.false_ne_true this
    refine ⟨k, ?_, by simpa using hk, ?_, ?_, ?_, ?_⟩ <;>
      simp [writeSummariesGo, hin, List.count_append, List.count_cons, hno, isInsEv, hlen]
  · intro tb d h
    simp [execInsertOne, h]

/-- C6 witness: five candidate records of which two (keys C and D)
already exist report 3 inserted and 2 duplicates ignored; the duplicate
insert is a no-op affecting zero rows. -/
theorem c6_success_report_witness :
    (writeSummariesGo (fun _ => false) [fiveSum]
        [detailRow (mkDet "C" runT), detailRow (mkDet "D" runT)]).2.2 = .ok (3, 2) ∧
    execInsertOne [detailRow (mkDet "C" runT)] (mkDet "C" runT) =
      ([detailRow (mkDet "C" runT)], 0) := by
  exact ⟨by rfl, c6_success_report.2 [detailRow (mkDet "C" runT)] (mkDet "C" runT) (by rfl)⟩

/-! ### Decoder lemmas (C2, C3) -/

/-- Accumulating digits is positional: folding onto `acc` scales it by
`10^|ds|` and adds the digits' value. -/
lemma foldl_digitsVal (ds : List Char) :
    ∀ acc : Nat, ds.foldl (fun a c => 10 * a + dv c) acc
      = acc * 10 ^ ds.length + digitsVal ds := by
  induction ds with
  | nil => intro acc; simp [digitsVal]
  | cons c rest ih =>
    intro acc
    have hv : digitsVal (c :: rest) = dv c * 10 ^ rest.length + digitsVal rest := by
      show List.foldl (fun a c => 10 * a + dv c) (10 * 0 + dv c) rest = _
      rw [ih (10 * 0 + dv c)]
      ring_nf
    have hl : List.foldl (fun a c => 10 * a + dv c) acc (c :: rest)
        = List.foldl (fun a c => 10 * a + dv c) (10 * acc + dv c) rest := rfl
    rw [hl, ih (10 * acc + dv c), hv, List.length_cons]
    ring

/-- Positional value of concatenated digit strings. -/
lemma digitsVal_append (a b : List Char) :
    digitsVal (a ++ b) = digitsVal a * 10 ^ b.length + digitsVal b := by
  show List.foldl _ 0 (a ++ b) = _
  rw [List.foldl_append, foldl_digitsVal b]
  exact rfl

/-- The digit scanner consumes a leading digit block in one pass. -/
lemma scanDigits_digits (ds : List Char) :
    ∀ (rest : List Char) (acc k : Nat), ds.all isDigitCh = true →
      scanDigits (ds ++ rest) acc k =
        scanDigits rest (ds.foldl (fun a c => 10 * a + dv c) acc) (k + ds.length) := by
  induction ds with
  | nil => intro rest acc k _; simp
  | cons c rest' ih =>
    intro rest acc k h
    simp only [List.all_cons, Bool.and_eq_true] at h
    have hstep : scanDigits ((c :: rest') ++ rest) acc k
        = scanDigits (rest' ++ rest) (10 * acc + dv c) (k + 1) := by
      simp [scanDigits, h.1]
    rw [hstep, ih rest (10 * acc + dv c) (k + 1) h.2]
    simp only [List.foldl_cons, List.length_cons]
    congr 1
    omega

/-- The digit scanner stops at a non-digit. -/
lemma scanDigits_stop {c : Char} (rest : List Char) (acc k : Nat)
    (h : isDigitCh c = false) : scanDigits (c :: rest) acc k = (acc, k, c :: rest) := by
  simp [scanDigits, h]

/-- Bounds of a digit character's code point. -/
lemma isDigitCh_bound {c : Char} (h : isDigitCh c = true) :
    48 ≤ c.toNat ∧ c.toNat ≤ 57 := by
  simpa [isDigitCh, Bool.and_eq_true, decide_eq_true_eq] using h

/-- A digit character's value is below 10. -/
lemma dv_lt_10 {c : Char} (h : isDigitCh c = true) : dv c < 10 := by
  have := isDigitCh_bound h
  unfold dv
  omega

/-- Reconstructing a digit character from its value. -/
lemma digit_eta {c : Char} (h : isDigitCh c = true) : Char.ofNat (48 + dv c) = c := by
  have hb := isDigitCh_bound h
  have he : 48 + dv c = c.toNat := by unfold dv; omega
  rw [he, Char.ofNat_toNat]

/-- The character of a digit value is a digit character with that value. -/
lemma digit_ofNat : ∀ d < 10,
    isDigitCh (Char.ofNat (48 + d)) = true ∧ dv (Char.ofNat (48 + d)) = d := by
  decide

/-- `unquote` leaves a token alone when its first character is not a
quote. -/
lemma unquote_eq_self_of_head {l : List Char} {c : Char} (h : l.head? = some c)
    (h1 : c ≠ squote) (h2 : c ≠ dquote) : unquote l = l := by
  unfold unquote
  rw [if_neg]
  rintro ⟨-, -, hq | hq⟩
  · rw [h] at hq
    exact h1 (by injection hq)
  · rw [h] at hq
    exact h2 (by injection hq)

/-- `unquote` strips a matching pair of surrounding quote characters. -/
lemma unquote_strip {q : Char} (hq : q = squote ∨ q = dquote) (l : List Char) :
    unquote (q :: l ++ [q]) = l := by
  unfold unquote
  rw [if_pos]
  · simp [List.dropLast_concat]
  · refine ⟨by simp, ?_, ?_⟩
    · show some q = ((q :: l) ++ [q]).getLast?
      rw [List.getLast?_concat]
    · rcases hq with rfl | rfl
      · exact Or.inl rfl
      · exact Or.inr rfl

/-- A token whose first character is not `n` is not the null token. -/
lemma mk_ne_null {l : List Char} {c : Char} (h : l.head? = some c) (hc : c ≠ 'n') :
    (⟨l⟩ : String) ≠ "null" := by
  intro he
  have hd : l = "null".data := congrArg String.data he
  rw [hd, show "null".data = ['n', 'u', 'l', 'l'] from rfl] at h
  have h2 : 'n' = c := by simpa using h
  exact hc h2.symm

/-- `splitSign` is the identity on unsigned tokens. -/
lemma splitSign_no_sign {l : List Char} {c : Char} (h : l.head? = some c)
    (h1 : c ≠ '+') (h2 : c ≠ '-') : splitSign l = (false, l) := by
  cases l with
  | nil => simp at h
  | cons a rest =>
    obtain rfl : a = c := by simpa using h
    simp [splitSign, h1, h2]

/-- A digit character is neither a sign, a point, a quote nor `n`. -/
lemma digit_not_special {c : Char} (h : isDigitCh c = true) :
    c ≠ '+' ∧ c ≠ '-' ∧ c ≠ '.' ∧ c ≠ squote ∧ c ≠ dquote ∧ c ≠ 'n' := by
  have hb := isDigitCh_bound h
  refine ⟨?_, ?_, ?_, ?_, ?_, ?_⟩ <;>
    (rintro rfl; revert hb; decide)

/-- Specification-side reading of an integer token: an optional sign
followed by at least one digit, valued positionally; anything else has no
integer reading. -/
def intTokVal (l : List Char) : Option Int :=
  if l.head? = some '+' then
    if l.tail ≠ [] ∧ l.tail.all isDigitCh then some (digitsVal l.tail) else none
  else if l.head? = some '-' then
    if l.tail ≠ [] ∧ l.tail.all isDigitCh then some (-(digitsVal l.tail : Int)) else none
  else if l ≠ [] ∧ l.all isDigitCh then some (digitsVal l) else none

/-- Unfolding of `goAtoi` on an unsigned token. -/
lemma goAtoi_unfold_pos {l d : List Char} (hsp : splitSign l = (false, d)) :
    goAtoi ⟨l⟩ =
      if d = [] then .error ⟨"Atoi", ⟨l⟩, .syntaxErr⟩
      else if ¬ d.all isDigitCh then .error ⟨"Atoi", ⟨l⟩, .syntaxErr⟩
      else if digitsVal d < 2 ^ 63 then .ok (digitsVal d : Int)
      else .error ⟨"Atoi", ⟨l⟩, .rangeErr⟩ := by
  have hdata : (⟨l⟩ : String).data = l := rfl
  simp only [goAtoi, hdata, hsp, Bool.false_eq_true, if_false]

/-- Unfolding of `goAtoi` on a negative token. -/
lemma goAtoi_unfold_neg {l d : List Char} (hsp : splitSign l = (true, d)) :
    goAtoi ⟨l⟩ =
      if d = [] then .error ⟨"Atoi", ⟨l⟩, .syntaxErr⟩
      else if ¬ d.all isDigitCh then .error ⟨"Atoi", ⟨l⟩, .syntaxErr⟩
      else if digitsVal d ≤ 2 ^ 63 then .ok (-(digitsVal d : Int))
      else .error ⟨"Atoi", ⟨l⟩, .rangeErr⟩ := by
  have hdata : (⟨l⟩ : String).data = l := rfl
  simp only [goAtoi, hdata, hsp, if_true]

/-- `strconv.Atoi` returns exactly the integer reading of the token when
that reading is inside the 64-bit range. -/
lemma goAtoi_ok_of {l : List Char} {v : Int} (h : intTokVal l = some v)
    (h1 : -(2 ^ 63) ≤ v) (h2 : v < 2 ^ 63) : goAtoi ⟨l⟩ = .ok v := by
  unfold intTokVal at h
  cases l with
  | nil => simp at h
  | cons c rest =>
    by_cases hp : c = '+'
    · subst hp
      rw [if_pos (by simp)] at h
      simp only [List.tail_cons] at h
      by_cases hr : rest ≠ [] ∧ rest.all isDigitCh = true
      · rw [if_pos hr] at h
        injection h with hv
        have hn : digitsVal rest < 2 ^ 63 := by
          rw [← hv] at h2; exact_mod_cast h2
        rw [goAtoi_unfold_pos (d := rest) (by simp [splitSign])]
        rw [if_neg hr.1, if_neg (by simp [hr.2]), if_pos hn, ← hv]
      · rw [if_neg hr] at h; cases h
    · by_cases hm : c = '-'
      · subst hm
        rw [if_neg (by simp), if_pos (by simp)] at h
        simp only [List.tail_cons] at h
        by_cases hr : rest ≠ [] ∧ rest.all isDigitCh = true
        · rw [if_pos hr] at h
          injection h with hv
          have hn : digitsVal rest ≤ 2 ^ 63 := by
            rw [← hv] at h1; omega
          rw [goAtoi_unfold_neg (d := rest) (by simp [splitSign])]
          rw [if_neg hr.1, if_neg (by simp [hr.2]), if_pos hn, ← hv]
        · rw [if_neg hr] at h; cases h
      · rw [if_neg (by simp [hp]), if_neg (by simp [hm])] at h
        by_cases hr : (c :: rest) ≠ [] ∧ (c :: rest).all isDigitCh = true
        · rw [if_pos hr] at h
          injection h with hv
          have hn : digitsVal (c :: rest) < 2 ^ 63 := by
            rw [← hv] at h2; exact_mod_cast h2
          rw [goAtoi_unfold_pos (splitSign_no_sign (by simp) hp hm)]
          rw [if_neg hr.1, if_neg (by simp [hr.2]), if_pos hn, ← hv]
        · rw [if_neg hr] at h; cases h

/-- A decimal with no exponent denotes mantissa over `10^frac-digits`. -/
lemma decValue_noexp (m f : Nat) : decValue false m f 0 = (m : ℚ) / 10 ^ f := by
  simp only [decValue, Bool.false_eq_true, if_false]
  rcases Nat.eq_zero_or_pos f with rfl | hf
  · norm_num
  · rw [if_neg (show ¬ (0 : ℤ) ≤ 0 - (f : ℤ) by omega)]
    have he : (-(0 - (f : ℤ))).toNat = f := by omega
    rw [he]

/-- Unfolding of `goParseFloat` through a known sign split. -/
lemma goParseFloat_eq {l d : List Char} {neg : Bool} (hsp : splitSign l = (neg, d)) :
    goParseFloat ⟨l⟩ =
      match goFloatBody d with
      | none => .error ⟨"ParseFloat", ⟨l⟩, .syntaxErr⟩
      | some (m, fk, e) => .ok (decValue neg m fk e) := by
  simp only [goParseFloat, show (⟨l⟩ : String).data = l from rfl, hsp]

/-- Unfolding of `goFloatBody` through its scanning stages. -/
lemma goFloatBody_unfold {r : List Char} {ip ik : Nat} {l2 : List Char}
    {m fk : Nat} {l3 : List Char}
    (hd1 : scanDigits r 0 0 = (ip, ik, l2))
    (hd2 : (if l2.head? = some '.' then scanDigits l2.tail ip 0 else (ip, 0, l2)) =
      (m, fk, l3)) :
    goFloatBody r =
      if ik + fk = 0 then none
      else
        match scanExp l3 with
        | .error _ => none
        | .ok e => some (m, fk, e) := by
  simp only [goFloatBody, hd1, hd2]

/-- The digit scanner on a digit block followed by a non-digit. -/
lemma scanDigits_block_stop (ds : List Char) (c : Char) (rest : List Char)
    (hall : ds.all isDigitCh = true) (hc : isDigitCh c = false) :
    scanDigits (ds ++ c :: rest) 0 0 = (digitsVal ds, ds.length, c :: rest) := by
  rw [scanDigits_digits ds (c :: rest) 0 0 hall, scanDigits_stop rest _ _ hc]
  simp [digitsVal]

/-- `goParseFloat` on a decimal token `digits.digits`. -/
lemma goParseFloat_dec (ds1 ds2 : List Char) (hne : ds1 ++ ds2 ≠ [])
    (hall : (ds1 ++ ds2).all isDigitCh = true) :
    goParseFloat ⟨ds1 ++ '.' :: ds2⟩ =
      .ok ((digitsVal (ds1 ++ ds2) : ℚ) / 10 ^ ds2.length) := by
  have hall1 : ds1.all isDigitCh = true := by
    simp only [List.all_append, Bool.and_eq_true] at hall; exact hall.1
  have hall2 : ds2.all isDigitCh = true := by
    simp only [List.all_append, Bool.and_eq_true] at hall; exact hall.2
  have hsp : splitSign (ds1 ++ '.' :: ds2) = (false, ds1 ++ '.' :: ds2) := by
    cases ds1 with
    | nil => exact splitSign_no_sign (c := '.') (by simp) (by decide) (by decide)
    | cons a t =>
      have ha : isDigitCh a = true := by
        have := List.all_eq_true.mp hall1 a (by simp)
        simpa using this
      have hns := digit_not_special ha
      exact splitSign_no_sign (by simp) hns.1 hns.2.1
  have hd1 := scanDigits_block_stop ds1 '.' ds2 hall1 (by decide)
  have hd2 : (if ('.' :: ds2).head? = some '.' then
      scanDigits ('.' :: ds2).tail (digitsVal ds1) 0 else (digitsVal ds1, 0, '.' :: ds2)) =
      (digitsVal (ds1 ++ ds2), ds2.length, []) := by
    rw [if_pos (by simp)]
    show scanDigits ds2 (digitsVal ds1) 0 = _
    have h := scanDigits_digits ds2 [] (digitsVal ds1) 0 hall2
    rw [List.append_nil] at h
    rw [h, foldl_digitsVal ds2 (digitsVal ds1)]
    simp [scanDigits, digitsVal_append]
  have hbody : goFloatBody (ds1 ++ '.' :: ds2) =
      some (digitsVal (ds1 ++ ds2), ds2.length, 0) := by
    rw [goFloatBody_unfold hd1 hd2]
    rw [if_neg (by
      intro hz
      have h1 : ds1.length = 0 := by omega
      have h2 : ds2.length = 0 := by omega
      exact hne (by
        rw [List.length_eq_zero] at h1 h2
        simp [h1, h2]))]
    rfl
  rw [goParseFloat_eq hsp, hbody]
  show Except.ok (decValue false (digitsVal (ds1 ++ ds2)) ds2.length 0) = _
  rw [decValue_noexp]

/-- Every `goParseFloat` failure is a syntax error carrying the token it
was given. -/
lemma goParseFloat_error_shape {s : String} {e : NumErr}
    (h : goParseFloat s = .error e) : e = ⟨"ParseFloat", s, .syntaxErr⟩ := by
  simp only [goParseFloat] at h
  split at h
  · exact (Except.error.inj h).symm
  · cases h

/-- Unfolding of `qintUnmarshal` on a successful parse. -/
lemma qintUnmarshal_ok {l : List Char} {v : Int} (hnull : (⟨l⟩ : String) ≠ "null")
    (h : goAtoi ⟨unquote l⟩ = .ok v) : qintUnmarshal ⟨l⟩ = .ok (some v) := by
  simp only [qintUnmarshal, if_neg hnull, show (⟨l⟩ : String).data = l from rfl, h]

/-- Unfolding of `qfloatUnmarshal` on a successful parse. -/
lemma qfloatUnmarshal_ok {l : List Char} {q : ℚ} (hnull : (⟨l⟩ : String) ≠ "null")
    (h : goParseFloat ⟨unquote l⟩ = .ok q) : qfloatUnmarshal ⟨l⟩ = .ok (some q) := by
  simp only [qfloatUnmarshal, if_neg hnull, show (⟨l⟩ : String).data = l from rfl, h]

/-- Head character of a decimal token `ds1.ds2`: never a quote, `n`, or a
sign. -/
lemma dec_token_head (ds1 ds2 : List Char) (hall : (ds1 ++ ds2).all isDigitCh = true) :
    ∃ c, (ds1 ++ '.' :: ds2).head? = some c ∧ c ≠ squote ∧ c ≠ dquote ∧ c ≠ 'n' := by
  cases ds1 with
  | nil => exact ⟨'.', rfl, by decide, by decide, by decide⟩
  | cons a t =>
    have ha : isDigitCh a = true := by
      have := List.all_eq_true.mp hall a (by simp)
      simpa using this
    have hns := digit_not_special ha
    exact ⟨a, rfl, hns.2.2.2.1, hns.2.2.2.2.1, hns.2.2.2.2.2⟩

/-! ### C2 -/

/-- The binding of one nullable integer field of one record: an omitted
field never reaches the unmarshaler and stays at the zero value; a
present token goes through `qint.UnmarshalJSON`; either way `V()` turns
the result into the SQL binding. -/
def bindQint (tok : Option String) : Except NumErr SQLValue :=
  match tok with
  | none => .ok (qintV none)
  | some s =>
    match qintUnmarshal s with
    | .error e => .error e
    | .ok v => .ok (qintV v)

/-- The float-field analogue of `bindQint`. -/
def bindQfloat (tok : Option String) : Except NumErr SQLValue :=
  match tok with
  | none => .ok (qfloatV none)
  | some s =>
    match qfloatUnmarshal s with
    | .error e => .error e
    | .ok v => .ok (qfloatV v)

/-- C2: decoding then extracting an optional scalar for persistence is a
round-trip: an integer token denoting `v` (within the 64-bit range) binds
as the SQL integer `v`, a decimal token `ds1.ds2` binds as exactly the
rational it denotes, the null token and an absent field both bind as SQL
NULL, NULL is distinct from both the integer and the float zero, and the
row built by the ingestion writer carries precisely these bindings in the
`rating` and `ca_dist` columns. -/
theorem c2_optional_scalar_roundtrip :
    (∀ (s : String) (v : Int), s ≠ "null" → intTokVal (unquote s.data) = some v →
        -(2 ^ 63) ≤ v → v < 2 ^ 63 → bindQint (some s) = .ok (.int v)) ∧
    (∀ ds1 ds2 : List Char, ds1 ++ ds2 ≠ [] → (ds1 ++ ds2).all isDigitCh = true →
        bindQfloat (some ⟨ds1 ++ '.' :: ds2⟩) =
          .ok (.float ((digitsVal (ds1 ++ ds2) : ℚ) / 10 ^ ds2.length))) ∧
    (bindQint none = .ok .null ∧ bindQint (some "null") = .ok .null ∧
      bindQfloat none = .ok .null ∧ bindQfloat (some "null") = .ok .null) ∧
    ((SQLValue.null ≠ .int 0) ∧ (SQLValue.null ≠ .float 0)) ∧
    (∀ d : Detail, d.rating = none → (detailRow d).cols[1]? = some .null) ∧
    (∀ (d : Detail) (q : ℚ), d.caDist = some q →
        (detailRow d).cols[2]? = some (.float q)) := by
  refine ⟨?_, ?_, ⟨rfl, rfl, rfl, rfl⟩, ⟨by simp, by simp⟩, ?_, ?_⟩
  · intro s v hnull htok h1 h2
    have h := qintUnmarshal_ok (l := s.data) hnull (goAtoi_ok_of htok h1 h2)
    simp only [bindQint, h, qintV]
  · intro ds1 ds2 hne hall
    obtain ⟨c, hc, hq1, hq2, hn⟩ := dec_token_head ds1 ds2 hall
    have huq : unquote (ds1 ++ '.' :: ds2) = ds1 ++ '.' :: ds2 :=
      unquote_eq_self_of_head hc hq1 hq2
    have hnull := mk_ne_null hc hn
    have h := qfloatUnmarshal_ok hnull (by rw [huq]; exact goParseFloat_dec ds1 ds2 hne hall)
    simp only [bindQfloat, h, qfloatV]
  · intro d h
    simp [detailRow, h, qintV]
  · intro d q h
    simp [detailRow, h, qfloatV]

/-- C2 witness: the token "0.5" binds as the rational denoted by the
digits `05` over one decimal place, which is one half; the null token
binds as SQL NULL; and a record with `rating` null and `caDist` 0.5 binds
NULL into column 4 and 0.5 into column 5 of the insert. -/
theorem c2_optional_scalar_roundtrip_witness :
    bindQfloat (some "0.5") =
      .ok (.float ((digitsVal (['0'] ++ ['5']) : ℚ) / 10 ^ (['5'] : List Char).length)) ∧
    (digitsVal (['0'] ++ ['5']) : ℚ) / 10 ^ (['5'] : List Char).length = 1 / 2 ∧
    bindQint (some "null") = .ok .null ∧
    bindQint (some "42") = .ok (.int 42) ∧
    (detailRow { mkDet "2025 AB" runT with
        caDist := some ((digitsVal (['0'] ++ ['5']) : ℚ) / 10 ^ (['5'] : List Char).length)
      }).cols[1]? = some .null ∧
    (detailRow { mkDet "2025 AB" runT with
        caDist := some ((digitsVal (['0'] ++ ['5']) : ℚ) / 10 ^ (['5'] : List Char).length)
      }).cols[2]? =
      some (.float ((digitsVal (['0'] ++ ['5']) : ℚ) / 10 ^ (['5'] : List Char).length)) := by
  refine ⟨c2_optional_scalar_roundtrip.2.1 ['0'] ['5'] (by decide) (by decide),
    by rw [show digitsVal (['0'] ++ ['5']) = 5 from rfl]; norm_num,
    c2_optional_scalar_roundtrip.2.2.1.2.1,
    c2_optional_scalar_roundtrip.1 "42" 42 (by decide) (by decide) (by decide) (by decide),
    c2_optional_scalar_roundtrip.2.2.2.2.1 _ rfl,
    c2_optional_scalar_roundtrip.2.2.2.2.2 _ _ rfl⟩

/-! ### C3 -/

/-- No month has more than 31 days. -/
lemma daysIn_le31 (y m : Nat) : daysIn y m ≤ 31 := by
  unfold daysIn
  split_ifs <;> omega

/-- `getnum4` reads a four-digit rendering and returns its value. -/
lemma getnum4_pad {y : Nat} {r : List Char} (hy : y < 10000) :
    getnum4 (pad4 y ++ r) = some (y, r) := by
  have h1 : y / 1000 < 10 := by omega
  have h2 : y / 100 % 10 < 10 := by omega
  have h3 : y / 10 % 10 < 10 := by omega
  have h4 : y % 10 < 10 := by omega
  show getnum4 (Char.ofNat (48 + y / 1000) :: Char.ofNat (48 + y / 100 % 10) ::
      Char.ofNat (48 + y / 10 % 10) :: Char.ofNat (48 + y % 10) :: r) = some (y, r)
  simp only [getnum4]
  rw [if_pos ⟨(digit_ofNat _ h1).1, (digit_ofNat _ h2).1, (digit_ofNat _ h3).1,
    (digit_ofNat _ h4).1⟩]
  rw [(digit_ofNat _ h1).2, (digit_ofNat _ h2).2, (digit_ofNat _ h3).2,
    (digit_ofNat _ h4).2]
  rw [show ((y / 1000 * 10 + y / 100 % 10) * 10 + y / 10 % 10) * 10 + y % 10 = y by omega]

/-- `getnum2` reads a two-digit rendering and returns its value. -/
lemma getnum2_pad {n : Nat} {r : List Char} (hn : n < 100) :
    getnum2 (pad2 n ++ r) = some (n, r) := by
  have h1 : n / 10 < 10 := by omega
  have h2 : n % 10 < 10 := by omega
  show getnum2 (Char.ofNat (48 + n / 10) :: Char.ofNat (48 + n % 10) :: r) = some (n, r)
  simp only [getnum2]
  rw [if_pos ⟨(digit_ofNat _ h1).1, (digit_ofNat _ h2).1⟩]
  rw [(digit_ofNat _ h1).2, (digit_ofNat _ h2).2]
  rw [show n / 10 * 10 + n % 10 = n by omega]

/-- The non-fixed scanner takes two digits when two are present. -/
lemma getnum1or2_pad2 {n : Nat} {r : List Char} (hn : n < 100) :
    getnum1or2 (pad2 n ++ r) = some (n, r) := by
  have h1 : n / 10 < 10 := by omega
  have h2 : n % 10 < 10 := by omega
  show getnum1or2 (Char.ofNat (48 + n / 10) :: Char.ofNat (48 + n % 10) :: r) = some (n, r)
  simp only [getnum1or2]
  rw [if_pos (digit_ofNat _ h1).1, if_pos (digit_ofNat _ h2).1]
  rw [(digit_ofNat _ h1).2, (digit_ofNat _ h2).2]
  rw [show n / 10 * 10 + n % 10 = n by omega]

/-- The non-fixed scanner takes a single digit when the next character is
not a digit. -/
lemma getnum1or2_pad1 {n : Nat} {c : Char} {r : List Char} (hn : n < 10)
    (hc : isDigitCh c = false) :
    getnum1or2 (Char.ofNat (48 + n) :: c :: r) = some (n, c :: r) := by
  simp only [getnum1or2]
  rw [if_pos (digit_ofNat _ hn).1, if_neg (by simp [hc]), (digit_ofNat _ hn).2]

/-- A digit character is neither a space nor a colon. -/
lemma digit_not_sep {c : Char} (h : isDigitCh c = true) : c ≠ ' ' ∧ c ≠ ':' := by
  have hb := isDigitCh_bound h
  constructor <;> (rintro rfl; revert hb; decide)

/-- Dropping spaces from a rendered run of spaces reaches the rest
exactly, provided the rest does not begin with a space. -/
lemma dropWhile_spaces (k : Nat) {r : List Char} (hr : r.head? ≠ some ' ') :
    (List.replicate k ' ' ++ r).dropWhile (fun c => c = ' ') = r := by
  induction k with
  | zero =>
    cases r with
    | nil => rfl
    | cons a t =>
      have ha : ¬(a = ' ') := fun hx => hr (by simp [hx])
      simp [List.dropWhile_cons, ha]
  | succ k ih =>
    simp [List.replicate_succ, List.dropWhile_cons, ih]

/-- `skipSpace` consumes a rendered separator of one or more spaces. -/
lemma skipSpace_replicate {k : Nat} {r : List Char} (hr : r.head? ≠ some ' ') :
    skipSpace (List.replicate (k + 1) ' ' ++ r) = some r := by
  rw [List.replicate_succ, List.cons_append]
  simp only [skipSpace]
  rw [if_pos trivial, dropWhile_spaces k hr]

/-- The separator before a two-digit field is consumed in full. -/
lemma skipSpace_sep {k n : Nat} {r : List Char} (hn : n < 100) :
    skipSpace (List.replicate (k + 1) ' ' ++ (pad2 n ++ r)) = some (pad2 n ++ r) := by
  refine skipSpace_replicate ?_
  intro hcon
  have hd : (pad2 n ++ r).head? = some (Char.ofNat (48 + n / 10)) := rfl
  rw [hd] at hcon
  have hsp : Char.ofNat (48 + n / 10) = ' ' := by simpa using hcon
  exact (digit_not_sep (digit_ofNat _ (show n / 10 < 10 by omega)).1).1 hsp

/-- The separator before a single-digit field is consumed in full. -/
lemma skipSpace_sep1 {k n : Nat} {r : List Char} (hn : n < 10) :
    skipSpace (List.replicate (k + 1) ' ' ++ (Char.ofNat (48 + n) :: r)) =
      some (Char.ofNat (48 + n) :: r) := by
  refine skipSpace_replicate ?_
  intro hcon
  have hsp : Char.ofNat (48 + n) = ' ' := by simpa using hcon
  exact (digit_not_sep (digit_ofNat _ hn).1).1 hsp

/-- Assembling a successful parse from the outcome of each layout
element. -/
lemma goParseMinute_build {l : List Char} {y mo d h mi : Nat}
    {l1 l3 l5 l6 l7 : List Char}
    (h4 : getnum4 l = some (y, l1))
    (hd1 : l1.head? = some '-')
    (hmo : getnum2 l1.tail = some (mo, l3))
    (hd2 : l3.head? = some '-')
    (hdy : getnum2 l3.tail = some (d, l5))
    (hsp : skipSpace l5 = some l6)
    (hhr : getnum1or2 l6 = some (h, l7))
    (hcl : l7.head? = some ':')
    (hmin : getnum2 l7.tail = some (mi, []))
    (hrange : 1 ≤ mo ∧ mo ≤ 12 ∧ 1 ≤ d ∧ d ≤ daysIn y mo ∧ h < 24 ∧ mi < 60) :
    goParseMinute l = .ok ⟨y, mo, d, h, mi⟩ := by
  simp only [goParseMinute, h4]
  rw [if_pos hd1]
  simp only [hmo]
  rw [if_pos hd2]
  simp only [hdy, hsp, hhr]
  rw [if_pos hcl]
  simp only [hmin]
  rw [if_neg (show ¬(([] : List Char) ≠ []) by simp)]
  rw [if_pos hrange]

/-- Parsing any rendered form of a valid broken-down time recovers it:
one or many separator spaces, padded or single-digit hour. -/
lemma goParseMinute_fmtGen {t : GoTime} (hv : validGoTime t) (short : Bool) (k : Nat)
    (hshort : short = true → t.hour < 10) :
    goParseMinute (fmtMinuteGen t short k) = .ok t := by
  obtain ⟨y, mo, d, h, mi⟩ := t
  obtain ⟨hy, hmo1, hmo2, hd1, hd2, hh, hmi⟩ :
      y < 10000 ∧ 1 ≤ mo ∧ mo ≤ 12 ∧ 1 ≤ d ∧ d ≤ daysIn y mo ∧ h < 24 ∧ mi < 60 := hv
  have hdm : d ≤ 31 := le_trans hd2 (daysIn_le31 y mo)
  cases short with
  | false =>
    have e4 : getnum4 (fmtMinuteGen ⟨y, mo, d, h, mi⟩ false k) =
        some (y, '-' :: (pad2 mo ++ '-' :: (pad2 d ++ (List.replicate (k + 1) ' ' ++
          (pad2 h ++ ':' :: pad2 mi))))) := getnum4_pad hy
    exact goParseMinute_build e4 rfl (getnum2_pad (show mo < 100 by omega)) rfl
      (getnum2_pad (show d < 100 by omega)) (skipSpace_sep (show h < 100 by omega))
      (getnum1or2_pad2 (show h < 100 by omega)) rfl
      (getnum2_pad (r := ([] : List Char)) (show mi < 100 by omega))
      ⟨hmo1, hmo2, hd1, hd2, hh, hmi⟩
  | true =>
    have hh10 : h < 10 := hshort rfl
    have e4 : getnum4 (fmtMinuteGen ⟨y, mo, d, h, mi⟩ true k) =
        some (y, '-' :: (pad2 mo ++ '-' :: (pad2 d ++ (List.replicate (k + 1) ' ' ++
          (Char.ofNat (48 + h) :: (':' :: pad2 mi)))))) := getnum4_pad hy
    exact goParseMinute_build e4 rfl (getnum2_pad (show mo < 100 by omega)) rfl
      (getnum2_pad (show d < 100 by omega)) (skipSpace_sep1 hh10)
      (getnum1or2_pad1 hh10 (show isDigitCh ':' = false by decide)) rfl
      (getnum2_pad (r := ([] : List Char)) (show mi < 100 by omega))
      ⟨hmo1, hmo2, hd1, hd2, hh, hmi⟩

/-- Inversion of `getnum2`: success means the input began with the
two-digit rendering of the value. -/
lemma getnum2_inv {l : List Char} {n : Nat} {r : List Char}
    (h : getnum2 l = some (n, r)) : n < 100 ∧ l = pad2 n ++ r := by
  cases l with
  | nil => exact absurd h (by simp [getnum2])
  | cons c1 t1 =>
    cases t1 with
    | nil => exact absurd h (by simp [getnum2])
    | cons c2 t =>
      simp only [getnum2] at h
      split_ifs at h with hd
      · obtain ⟨hd1, hd2⟩ := hd
        injection h with h'
        rw [Prod.mk.injEq] at h'
        obtain ⟨rfl, rfl⟩ := h'
        have b1 := dv_lt_10 hd1
        have b2 := dv_lt_10 hd2
        refine ⟨by omega, ?_⟩
        simp only [pad2]
        rw [show (dv c1 * 10 + dv c2) / 10 = dv c1 by omega,
          show (dv c1 * 10 + dv c2) % 10 = dv c2 by omega,
          digit_eta hd1, digit_eta hd2]
        simp

/-- Inversion of `getnum4`. -/
lemma getnum4_inv {l : List Char} {n : Nat} {r : List Char}
    (h : getnum4 l = some (n, r)) : n < 10000 ∧ l = pad4 n ++ r := by
  cases l with
  | nil => exact absurd h (by simp [getnum4])
  | cons c1 t1 =>
    cases t1 with
    | nil => exact absurd h (by simp [getnum4])
    | cons c2 t2 =>
      cases t2 with
      | nil => exact absurd h (by simp [getnum4])
      | cons c3 t3 =>
        cases t3 with
        | nil => exact absurd h (by simp [getnum4])
        | cons c4 t =>
          simp only [getnum4] at h
          split_ifs at h with hd
          · obtain ⟨hd1, hd2, hd3, hd4⟩ := hd
            injection h with h'
            rw [Prod.mk.injEq] at h'
            obtain ⟨rfl, rfl⟩ := h'
            have b1 := dv_lt_10 hd1
            have b2 := dv_lt_10 hd2
            have b3 := dv_lt_10 hd3
            have b4 := dv_lt_10 hd4
            refine ⟨by omega, ?_⟩
            simp only [pad4]
            rw [show (((dv c1 * 10 + dv c2) * 10 + dv c3) * 10 + dv c4) / 1000
                  = dv c1 by omega,
              show (((dv c1 * 10 + dv c2) * 10 + dv c3) * 10 + dv c4) / 100 % 10
                  = dv c2 by omega,
              show (((dv c1 * 10 + dv c2) * 10 + dv c3) * 10 + dv c4) / 10 % 10
                  = dv c3 by omega,
              show (((dv c1 * 10 + dv c2) * 10 + dv c3) * 10 + dv c4) % 10
                  = dv c4 by omega,
              digit_eta hd1, digit_eta hd2, digit_eta hd3, digit_eta hd4]
            simp

/-- Inversion of `getnum1or2`: the value came from one digit or from
two. -/
lemma getnum1or2_inv {l : List Char} {n : Nat} {r : List Char}
    (h : getnum1or2 l = some (n, r)) :
    (n < 100 ∧ l = pad2 n ++ r) ∨ (n < 10 ∧ l = Char.ofNat (48 + n) :: r) := by
  cases l with
  | nil => exact absurd h (by simp [getnum1or2])
  | cons c1 t1 =>
    cases t1 with
    | nil =>
      simp only [getnum1or2] at h
      split_ifs at h with hd
      · injection h with h'
        rw [Prod.mk.injEq] at h'
        obtain ⟨rfl, rfl⟩ := h'
        exact Or.inr ⟨dv_lt_10 hd, by rw [digit_eta hd]⟩
    | cons c2 t =>
      simp only [getnum1or2] at h
      split_ifs at h with hd1 hd2
      · injection h with h'
        rw [Prod.mk.injEq] at h'
        obtain ⟨rfl, rfl⟩ := h'
        have b1 := dv_lt_10 hd1
        have b2 := dv_lt_10 hd2
        refine Or.inl ⟨by omega, ?_⟩
        simp only [pad2]
        rw [show (dv c1 * 10 + dv c2) / 10 = dv c1 by omega,
          show (dv c1 * 10 + dv c2) % 10 = dv c2 by omega,
          digit_eta hd1, digit_eta hd2]
        simp
      · injection h with h'
        rw [Prod.mk.injEq] at h'
        obtain ⟨rfl, rfl⟩ := h'
        exact Or.inr ⟨dv_lt_10 hd1, by rw [digit_eta hd1]⟩

/-- The head of `dropWhile` does not satisfy the predicate. -/
lemma head_dropWhile_not {p : Char → Bool} :
    ∀ (l : List Char) {c : Char}, (l.dropWhile p).head? = some c → p c = false := by
  intro l
  induction l with
  | nil => intro c hc; simp [List.dropWhile_nil] at hc
  | cons a t ih =>
    intro c hc
    rw [List.dropWhile_cons] at hc
    by_cases hp : p a
    · rw [if_pos hp] at hc
      exact ih hc
    · rw [if_neg hp] at hc
      obtain rfl : a = c := by simpa using hc
      simpa using hp

/-- Inversion of `skipSpace`: the consumed prefix was one or more spaces
and the rest does not begin with a space. -/
lemma skipSpace_inv {l r : List Char} (h : skipSpace l = some r) :
    (∃ k, l = List.replicate (k + 1) ' ' ++ r) ∧ r.head? ≠ some ' ' := by
  cases l with
  | nil => exact absurd h (by simp [skipSpace])
  | cons a t =>
    simp only [skipSpace] at h
    split_ifs at h with ha
    · subst ha
      obtain rfl : t.dropWhile (fun x => x = ' ') = r := Option.some.inj h
      constructor
      · obtain ⟨m, hm⟩ : ∃ m, t.takeWhile (fun x => x = ' ') = List.replicate m ' ' := by
          refine ⟨(t.takeWhile (fun x => x = ' ')).length, ?_⟩
          refine List.eq_replicate_of_mem ?_
          intro b hb
          have hbm := List.mem_takeWhile_imp hb
          simpa using hbm
        have ht : t = List.replicate m ' ' ++ t.dropWhile (fun x => x = ' ') := by
          conv_lhs => rw [← List.takeWhile_append_dropWhile
            (p := fun x : Char => x = ' ') (l := t)]
          rw [hm]
        refine ⟨m, ?_⟩
        rw [List.replicate_succ, List.cons_append, ← ht]
      · intro hcon
        have hc := head_dropWhile_not t hcon
        simp at hc

/-- Completeness: a successful parse means the input was a rendered form
of a valid broken-down time — padded or single-digit hour, one or more
separator spaces. -/
lemma goParseMinute_complete {l : List Char} {t : GoTime}
    (h : goParseMinute l = .ok t) :
    validGoTime t ∧ ∃ (short : Bool) (k : Nat),
      (short = true → t.hour < 10) ∧ l = fmtMinuteGen t short k := by
  unfold goParseMinute at h
  cases h4 : getnum4 l with
  | none => simp only [h4] at h; exact Except.noConfusion h
  | some p =>
    obtain ⟨y, l1⟩ := p
    simp only [h4] at h
    by_cases hh1 : l1.head? = some '-'
    case neg => rw [if_neg hh1] at h; exact Except.noConfusion h
    case pos =>
    rw [if_pos hh1] at h
    obtain ⟨l2, rfl⟩ : ∃ l2, l1 = '-' :: l2 := by
      cases l1 with
      | nil => exact absurd hh1 (by simp)
      | cons a l2 =>
        refine ⟨l2, ?_⟩
        have ha : a = '-' := by simpa using hh1
        rw [ha]
    simp only [List.tail_cons] at h
    cases h2 : getnum2 l2 with
    | none => simp only [h2] at h; exact Except.noConfusion h
    | some p =>
    obtain ⟨mo, l3⟩ := p
    simp only [h2] at h
    by_cases hh2 : l3.head? = some '-'
    case neg => rw [if_neg hh2] at h; exact Except.noConfusion h
    case pos =>
    rw [if_pos hh2] at h
    obtain ⟨l4, rfl⟩ : ∃ l4, l3 = '-' :: l4 := by
      cases l3 with
      | nil => exact absurd hh2 (by simp)
      | cons a l4 =>
        refine ⟨l4, ?_⟩
        have ha : a = '-' := by simpa using hh2
        rw [ha]
    simp only [List.tail_cons] at h
    cases hdy : getnum2 l4 with
    | none => simp only [hdy] at h; exact Except.noConfusion h
    | some p =>
    obtain ⟨d, l5⟩ := p
    simp only [hdy] at h
    cases hsp : skipSpace l5 with
    | none => simp only [hsp] at h; exact Except.noConfusion h
    | some l6 =>
    simp only [hsp] at h
    cases hhr : getnum1or2 l6 with
    | none => simp only [hhr] at h; exact Except.noConfusion h
    | some p =>
    obtain ⟨hr, l7⟩ := p
    simp only [hhr] at h
    by_cases hcl : l7.head? = some ':'
    case neg => rw [if_neg hcl] at h; exact Except.noConfusion h
    case pos =>
    rw [if_pos hcl] at h
    obtain ⟨l8, rfl⟩ : ∃ l8, l7 = ':' :: l8 := by
      cases l7 with
      | nil => exact absurd hcl (by simp)
      | cons a l8 =>
        refine ⟨l8, ?_⟩
        have ha : a = ':' := by simpa using hcl
        rw [ha]
    simp only [List.tail_cons] at h
    cases hmin : getnum2 l8 with
    | none => simp only [hmin] at h; exact Except.noConfusion h
    | some p =>
    obtain ⟨mi, l9⟩ := p
    simp only [hmin] at h
    by_cases h9 : l9 = []
    case neg => rw [if_pos h9] at h; exact Except.noConfusion h
    case pos =>
    subst h9
    rw [if_neg (show ¬(([] : List Char) ≠ []) by simp)] at h
    by_cases hrange : 1 ≤ mo ∧ mo ≤ 12 ∧ 1 ≤ d ∧ d ≤ daysIn y mo ∧ hr < 24 ∧ mi < 60
    case neg => rw [if_neg hrange] at h; exact Except.noConfusion h
    case pos =>
    rw [if_pos hrange] at h
    obtain rfl : (⟨y, mo, d, hr, mi⟩ : GoTime) = t := Except.ok.inj h
    obtain ⟨hy4, rfl⟩ := getnum4_inv h4
    obtain ⟨hmo100, rfl⟩ := getnum2_inv h2
    obtain ⟨hd100, rfl⟩ := getnum2_inv hdy
    obtain ⟨⟨k, rfl⟩, hl6⟩ := skipSpace_inv hsp
    obtain ⟨hmi100, rfl⟩ := getnum2_inv hmin
    obtain ⟨hmo1, hmo2, hdd1, hdd2, hhh, hmm2⟩ := hrange
    rcases getnum1or2_inv hhr with ⟨hh100, rfl⟩ | ⟨hh10, rfl⟩
    · refine ⟨⟨hy4, hmo1, hmo2, hdd1, hdd2, hhh, hmm2⟩, false, k,
        fun hc => Bool.noConfusion hc, ?_⟩
      simp [fmtMinuteGen]
    · refine ⟨⟨hy4, hmo1, hmo2, hdd1, hdd2, hhh, hmm2⟩, true, k,
        fun _ => hh10, ?_⟩
      simp [fmtMinuteGen]

/-- Head character of a rendered timestamp: a digit. -/
lemma fmtMinuteGen_head (t : GoTime) (short : Bool) (k : Nat) (hy : t.year < 10000) :
    ∃ c, (fmtMinuteGen t short k).head? = some c ∧ isDigitCh c = true := by
  obtain ⟨y, mo, d, h, mi⟩ := t
  have hy' : y < 10000 := hy
  exact ⟨Char.ofNat (48 + y / 1000), rfl, (digit_ofNat _ (show y / 1000 < 10 by omega)).1⟩

/-- Head character of the canonical rendering: a digit. -/
lemma fmtMinute_head (t : GoTime) (hy : t.year < 10000) :
    ∃ c, (fmtMinute t).head? = some c ∧ isDigitCh c = true :=
  fmtMinuteGen_head t false 0 hy

/-- Length of a rendered timestamp: 15 characters with a single-digit
hour, 16 with a padded one, plus the extra separator spaces. -/
lemma fmtMinuteGen_length (t : GoTime) (short : Bool) (k : Nat) :
    (fmtMinuteGen t short k).length = (if short then 15 else 16) + k := by
  cases short <;> simp [fmtMinuteGen, pad4, pad2] <;> omega

/-- Every rendered timestamp has at least 15 characters. -/
lemma fmtMinuteGen_length_ge (t : GoTime) (short : Bool) (k : Nat) :
    15 ≤ (fmtMinuteGen t short k).length := by
  rw [fmtMinuteGen_length]
  cases short
  · simp only [Bool.false_eq_true, if_false]
    omega
  · have he : (if (true = true) then 15 else 16) = 15 := rfl
    rw [he]
    omega

/-- C8 counterexample: the claim says that only tokens of the fixed form
`YYYY-MM-DD hh:mm` parse and any other token fails, but Go's layout
element `15` is `getnum` with `fixed = false` — a single-digit hour is
accepted — and a layout space consumes a run of spaces.  The 15-character
token `2025-01-01 5:04` and the 17-character token `2025-01-01  00:00`
both decode successfully, yet neither is a fixed-form token, which always
has 16 characters. -/
theorem c8_fixed_form_counterexample :
    mintimeUnmarshal "2025-01-01 5:04" = .ok ⟨2025, 1, 1, 5, 4⟩ ∧
    "2025-01-01 5:04".data.length = 15 ∧
    mintimeUnmarshal "2025-01-01  00:00" = .ok ⟨2025, 1, 1, 0, 0⟩ ∧
    "2025-01-01  00:00".data.length = 17 ∧
    (∀ t : GoTime, (fmtMinute t).length = 16) := by
  refine ⟨by decide, by decide, by decide, by decide, ?_⟩
  intro t
  have hl := fmtMinuteGen_length t false 0
  simp only [Bool.false_eq_true, if_false, Nat.add_zero] at hl
  exact hl

/-- C8 (corrected): the timestamp decoder maps the null token to
"absent", encoded as the zero instant of `time.Time`; a rendered
`YYYY-MM-DD hh:mm` token — bare or surrounded by matching quotes,
stripped first — parses to the corresponding UTC instant, but the
accepted family is wider than the fixed form: the hour may be one or two
digits (layout element `15` is not zero-padded) and the date-time
separator may be any positive run of spaces; absence is indistinguishable
from the zero instant at the storage boundary, since the token
`0001-01-01 00:00` decodes to the very value null does; and a token that
is not a rendered form of any valid instant fails with a decode error,
because parsing succeeds exactly on that family. -/
theorem c8_timestamp_contract :
    (mintimeUnmarshal "null" = .ok GoTime.zero) ∧
    (∀ t : GoTime, validGoTime t →
        mintimeUnmarshal ⟨fmtMinute t⟩ = .ok t ∧
        mintimeUnmarshal ⟨dquote :: fmtMinute t ++ [dquote]⟩ = .ok t) ∧
    (∀ (t : GoTime) (short : Bool) (k : Nat), validGoTime t →
        (short = true → t.hour < 10) →
        mintimeUnmarshal ⟨fmtMinuteGen t short k⟩ = .ok t) ∧
    (mintimeUnmarshal "null" = mintimeUnmarshal ⟨fmtMinute GoTime.zero⟩) ∧
    (∀ (l : List Char) (t : GoTime), goParseMinute l = .ok t →
        validGoTime t ∧ ∃ (short : Bool) (k : Nat),
          (short = true → t.hour < 10) ∧ l = fmtMinuteGen t short k) ∧
    (∀ s : String, s ≠ "null" →
        (∀ (t : GoTime) (short : Bool) (k : Nat), validGoTime t →
          unquote s.data ≠ fmtMinuteGen t short k) →
        ∃ e, mintimeUnmarshal s = .error e) := by
  refine ⟨rfl, ?_, ?_, by decide, fun l t h => goParseMinute_complete h, ?_⟩
  · intro t hv
    obtain ⟨c, hc, hdig⟩ := fmtMinute_head t hv.1
    have hns := digit_not_special hdig
    constructor
    · have hnull := mk_ne_null hc hns.2.2.2.2.2
      simp only [mintimeUnmarshal, if_neg hnull,
        show (⟨fmtMinute t⟩ : String).data = fmtMinute t from rfl,
        unquote_eq_self_of_head hc hns.2.2.2.1 hns.2.2.2.2.1]
      exact goParseMinute_fmtGen hv false 0 (fun hc2 => Bool.noConfusion hc2)
    · have hnull : (⟨dquote :: fmtMinute t ++ [dquote]⟩ : String) ≠ "null" :=
        mk_ne_null rfl (by decide)
      simp only [mintimeUnmarshal, if_neg hnull,
        show (⟨dquote :: fmtMinute t ++ [dquote]⟩ : String).data =
          dquote :: fmtMinute t ++ [dquote] from rfl,
        unquote_strip (Or.inr rfl)]
      exact goParseMinute_fmtGen hv false 0 (fun hc2 => Bool.noConfusion hc2)
  · intro t short k hv hshort
    obtain ⟨c, hc, hdig⟩ := fmtMinuteGen_head t short k hv.1
    have hns := digit_not_special hdig
    have hnull := mk_ne_null hc hns.2.2.2.2.2
    simp only [mintimeUnmarshal, if_neg hnull,
      show (⟨fmtMinuteGen t short k⟩ : String).data = fmtMinuteGen t short k from rfl,
      unquote_eq_self_of_head hc hns.2.2.2.1 hns.2.2.2.2.1]
    exact goParseMinute_fmtGen hv short k hshort
  · intro s hnull hno
    cases hres : goParseMinute (unquote s.data) with
    | error e => exact ⟨e, by simp [mintimeUnmarshal, hnull, hres]⟩
    | ok t =>
      obtain ⟨hv, short, k, hbound, heq⟩ := goParseMinute_complete hres
      exact absurd heq (hno t short k hv)

/-- C8 witness: the canonical and the quoted token for 2025-01-01 00:00
decode to that instant; the single-digit-hour rendering of
2025-01-01 05:04 decodes likewise; completeness applied to the concrete
token `0001-01-01 00:00` exhibits it as a rendering of the zero instant;
and the failure clause applied to the token `soon`, which is too short to
be any rendering, yields a decode error. -/
theorem c8_timestamp_contract_witness :
    mintimeUnmarshal ⟨fmtMinute runT⟩ = .ok runT ∧
    mintimeUnmarshal ⟨dquote :: fmtMinute runT ++ [dquote]⟩ = .ok runT ∧
    mintimeUnmarshal ⟨fmtMinuteGen ⟨2025, 1, 1, 5, 4⟩ true 0⟩ = .ok ⟨2025, 1, 1, 5, 4⟩ ∧
    (validGoTime GoTime.zero ∧ ∃ (short : Bool) (k : Nat),
      (short = true → GoTime.zero.hour < 10) ∧
      "0001-01-01 00:00".data = fmtMinuteGen GoTime.zero short k) ∧
    (∃ e, mintimeUnmarshal "soon" = .error e) := by
  have h1 := c8_timestamp_contract.2.1 runT (by decide)
  refine ⟨h1.1, h1.2, ?_, ?_, ?_⟩
  · exact c8_timestamp_contract.2.2.1 ⟨2025, 1, 1, 5, 4⟩ true 0 (by decide)
      (fun _ => by decide)
  · exact c8_timestamp_contract.2.2.2.2.1 "0001-01-01 00:00".data GoTime.zero (by decide)
  · refine c8_timestamp_contract.2.2.2.2.2 "soon" (by decide) ?_
    intro t short k hv hcon
    have hlen := congrArg List.length hcon
    rw [show (unquote "soon".data).length = 4 by decide] at hlen
    have hge := fmtMinuteGen_length_ge t short k
    omega

end Scout
